import Mathlib

/-!
Shallow embedding of dpark/task.py: the task-try identifier (TTID), the
DAGTask.run wrapper, the shuffle-map combine loop, the two bucket dumpers
(append mode and sort-merge mode) and the task-end-reason classifier,
together with theorems about the properties stated in the specification.

Python strings are embedded as List Char, Python dicts as insertion-ordered
association lists, and Python values that may be None as Option B (with
Option.none playing the role of None).  External collaborators that live in
other modules of the repository (serializer, work-dir allocator, merger,
memory accountant) are modelled from the spec where noted.
-/

namespace Dpark

/-! ## TaskEndReason (task.py lines 406 to 423) -/

namespace TaskEndReason

def success : String := "FINISHED_SUCCESS"

def other_ecs : String := "FAILED_UNKNOWN_EXITCODE"

def load_failed : String := "FAILED_PICKLE_LOAD"

def other_failure : String := "FAILED_OTHER_FAILURE"

def fetch_failed : String := "FAILED_FETCH_FAILED"

def task_oom : String := "FAILED_TASK_OOM"

def recv_sig : String := "FAILED_RECV_SIG"

def recv_sig_kill : String := "FAILED_RECV_SIG_KILL"

def launch_failed : String := "FAILED_LAUNCH_FAILED"

def mesos_cgroup_oom : String := "REASON_CONTAINER_LIMITATION_MEMORY"

/-- Models TaskEndReason.maybe_oom: membership of the reason in the tuple
(task_oom, recv_sig_kill, mesos_cgroup_oom). -/
def maybe_oom (reason : String) : Bool :=
  reason == task_oom || reason == recv_sig_kill || reason == mesos_cgroup_oom

end TaskEndReason

/-! ## DAGTask.run wrapper (task.py lines 102 to 117) -/

/-- Modelled from the spec: the process-wide memory accountant
(dpark.env.meminfo, a module of this repository outside task.py), restricted
to the fields DAGTask.run touches: the eager-check flag, the start/stop
registration, and the oom flag as it stands when the interrupt handler
reads it. -/
structure MemInfo where
  check : Bool
  started : Bool
  stopped : Bool
  oom : Bool
deriving DecidableEq, Repr

/-- How the subclass _run call terminates: a normal value, a cooperative
interrupt (KeyboardInterrupt), or some other exception (tagged). -/
inductive BodyResult (A : Type) where
  | ret (a : A)
  | keyboardInterrupt
  | exc (e : Nat)
deriving DecidableEq

/-- How DAGTask.run itself terminates.  oomExit is the call
os._exit(ERROR_TASK_OOM): the worker process terminates at once with the
reserved OOM exit code, skipping the finally block. -/
inductive RunOutcome (A : Type) where
  | normal (a : A)
  | oomExit
  | raisedInterrupt
  | raisedExc (e : Nat)
deriving DecidableEq

/-- The finally block of DAGTask.run (lines 114 to 117): when mem is not 0,
re-enable the eager check and deregister the attempt. -/
def runFinally (mem : Int) (m : MemInfo) : MemInfo :=
  if mem ≠ 0 then { m with check := true, stopped := true } else m

/-- Models DAGTask.run (lines 102 to 117): register the attempt when mem is
not 0 (disabling the eager check in multi-segment-dump mode), run the body,
translate a cooperative interrupt into a process exit when the accountant
flags OOM, and run the finally block on every path that leaves run. -/
def DAGTask.run (A : Type) (mem : Int) (multiSegmentDump : Bool) (m0 : MemInfo)
    (body : BodyResult A) : RunOutcome A × MemInfo :=
  let m1 := if mem ≠ 0 then
    { m0 with started := true, check := if multiSegmentDump then false else m0.check }
    else m0
  match body with
  | .ret a => (.normal a, runFinally mem m1)
  | .exc e => (.raisedExc e, runFinally mem m1)
  | .keyboardInterrupt =>
    if mem ≠ 0 ∧ m1.oom then (.oomExit, m1)
    else (.raisedInterrupt, runFinally mem m1)

/-! ## Python dicts as insertion-ordered association lists -/

section Dict

variable {K : Type} [DecidableEq K] {β : Type}

/-- Python d.get(k, default-absent): the value stored under the first
(unique) occurrence of k. -/
def dictGet (k : K) : List (K × β) → Option β
  | [] => none
  | (k', c) :: rest => if k' = k then some c else dictGet k rest

/-- Python d[k] = c on an insertion-ordered dict: replace in place when the
key is present, append otherwise. -/
def dictInsert (k : K) (c : β) : List (K × β) → List (K × β)
  | [] => [(k, c)]
  | (k', c') :: rest => if k' = k then (k', c) :: rest else (k', c') :: dictInsert k c rest

/-- The keys of a dict, in insertion order. -/
def dictKeys (l : List (K × β)) : List K := l.map Prod.fst

end Dict

/-! ## ShuffleMapTask combine loop (task.py lines 197 to 255)

Python values that may be None are embedded as Option B, with Option.none
playing the role of None.  The aggregator's create_combiner and merge_value
therefore land in Option B. -/

section Combine

variable {K V B : Type} [DecidableEq K]

/-- Models task.py lines 221 to 226: r = bucket.get(k, None); if r is not
None the stored value becomes merge_value(r, v), otherwise
create_combiner(v).  Note that a stored value equal to None fails the
"is not None" test exactly like an absent key. -/
def combineStep (create_combiner : V → Option B) (merge_value : Option B → V → Option B)
    (bucket : List (K × Option B)) (k : K) (v : V) : List (K × Option B) :=
  let r := (dictGet k bucket).getD none
  if r.isSome then dictInsert k (merge_value r v) bucket
  else dictInsert k (create_combiner v) bucket

/-- Models task.py line 221: the record (k, v) is combined into
buckets[get_partition(k)]; the other buckets are untouched. -/
def bucketsStep (get_partition : K → Nat)
    (create_combiner : V → Option B) (merge_value : Option B → V → Option B)
    (buckets : List (List (K × Option B))) (k : K) (v : V) : List (List (K × Option B)) :=
  buckets.set (get_partition k)
    (combineStep create_combiner merge_value (buckets.getD (get_partition k) []) k v)

/-- Folds the combine loop over a list of well-formed (k, v) records. -/
def combineAll (get_partition : K → Nat)
    (create_combiner : V → Option B) (merge_value : Option B → V → Option B)
    (l : List (K × V)) (buckets : List (List (K × Option B))) : List (List (K × Option B)) :=
  l.foldl (fun bs kv => bucketsStep get_partition create_combiner merge_value bs kv.1 kv.2) buckets

/-- An input record as the loop sees it: either a destructurable (k, v)
pair, or any other value (for example the integer 42), which fails the
unpacking k, v = item with a TypeError or ValueError. -/
inductive PyRecord (K V : Type) where
  | pair (k : K) (v : V)
  | nonpair (tag : Nat)
deriving DecidableEq

/-- Whether a record destructures as a (k, v) pair. -/
def PyRecord.isPair {K V : Type} : PyRecord K V → Bool
  | .pair _ _ => true
  | .nonpair _ => false

/-- The error kinds the combine loop can raise.  dparkUserFatal is
DparkUserFatalError, the user-error kind, which the scheduler treats as
non-retryable. -/
inductive TaskError where
  | dparkUserFatal
deriving DecidableEq

/-- Models task.py lines 213 to 226 with the malformed-record check of
lines 214 to 219: each record must destructure as a (k, v) pair, otherwise
the loop raises DparkUserFatalError; a pair is combined into its bucket. -/
def shuffleMapLoop (get_partition : K → Nat)
    (create_combiner : V → Option B) (merge_value : Option B → V → Option B) :
    List (PyRecord K V) → List (List (K × Option B)) →
    Except TaskError (List (List (K × Option B)))
  | [], buckets => .ok buckets
  | .pair k v :: rest, buckets =>
      shuffleMapLoop get_partition create_combiner merge_value rest
        (bucketsStep get_partition create_combiner merge_value buckets k v)
  | .nonpair _ :: _, _ => .error .dparkUserFatal

/-- Splits the input stream into the spill segments induced by the rotation
condition of task.py line 228 (meminfo.rss > mem_limit, here abstracted as
an arbitrary predicate on the record index): a dump is taken after record i
whenever rotate i holds, and a final dump is always taken when the iterator
is exhausted (line 246), so the trailing segment may be empty. -/
def segmentsOf {A : Type} (rotate : Nat → Bool) : Nat → List A → List (List A)
  | _, [] => [[]]
  | i, x :: xs =>
    if rotate i then [x] :: segmentsOf rotate (i + 1) xs
    else
      match segmentsOf rotate (i + 1) xs with
      | [] => [[x]]
      | s :: ss => (x :: s) :: ss

end Combine

/-! ## Sorting and merging (sort-merge mode)

Serialization, compression and the on-disk byte encoding live in
dpark.serialize and dpark.shuffle, outside task.py; following the spec's
serializer contract (load_stream inverts dump_stream), file contents are
embedded at the item level: an append-mode file is its list of frames, each
frame the list of (key, combined value) pairs of one dump, and a sort-merge
file is its sorted stream of pairs. -/

section SortMerge

variable {K B : Type} [LinearOrder K]

/-- Insert one pair into a list sorted by key (ascending). -/
def insertByKey (x : K × Option B) : List (K × Option B) → List (K × Option B)
  | [] => [x]
  | y :: ys => if x.1 ≤ y.1 then x :: y :: ys else y :: insertByKey x ys

/-- Models Python sorted(items) on the items of one bucket dict: the pairs
in ascending key order (the keys of a dict are pairwise distinct, so
comparison never reaches the second component). -/
def sortByKey (l : List (K × Option B)) : List (K × Option B) :=
  l.foldr insertByKey []

/-- Fuel-driven sorted two-way merge (the fuel only forces structural
termination; any fuel at least the sum of the lengths gives the merge). -/
def merge2Core (merge_combiners : Option B → Option B → Option B) :
    Nat → List (K × Option B) → List (K × Option B) → List (K × Option B)
  | 0, l1, l2 => l1 ++ l2
  | _ + 1, [], l2 => l2
  | _ + 1, x :: t1, [] => x :: t1
  | fuel + 1, (k1, c1) :: t1, (k2, c2) :: t2 =>
    if k1 < k2 then (k1, c1) :: merge2Core merge_combiners fuel t1 ((k2, c2) :: t2)
    else if k2 < k1 then
      (k2, c2) :: merge2Core merge_combiners fuel ((k1, c1) :: t1) t2
    else (k1, merge_combiners c1 c2) :: merge2Core merge_combiners fuel t1 t2

/-- Modelled from the spec: the two-way sorted merge underlying the k-way
Merger of dpark.shuffle (a module of this repository outside task.py): both
inputs are streams in strictly ascending key order; equal keys are combined
with merge_combiners, the earlier stream's combiner on the left. -/
def merge2 (merge_combiners : Option B → Option B → Option B)
    (l1 l2 : List (K × Option B)) : List (K × Option B) :=
  merge2Core merge_combiners (l1.length + l2.length) l1 l2

/-- Modelled from the spec: Merger.merge over the open spill streams, in
the order the temporaries were written. -/
def mergeStreams (merge_combiners : Option B → Option B → Option B)
    (streams : List (List (K × Option B))) : List (K × Option B) :=
  streams.foldl (fun acc s => merge2 merge_combiners acc s) []

end SortMerge

/-! ## Bucket dumpers (task.py lines 258 to 390)

Path allocation (ShuffleWorkDir.alloc_tmp) and atomic publication
(ShuffleWorkDir.export) live in dpark.shuffle; per the spec the allocator
mints fresh temporaries and export publishes a temporary into the
reducer's final slot.  The states below record, per reducer, the contents
of its temporary files in allocation order, and the sequence of export
events (reducer, published content) in program order. -/

section Dumpers

variable {K B : Type} [LinearOrder K]

/-- State of BucketDumper (append mode): per reducer at most one temporary
file, each file a list of frames appended across dumps.  sizes and
num_dump mirror the fields of BucketDumperBase, with the byte count of a
frame abstracted as its item count. -/
structure BucketDumperState (K B : Type) where
  num_reduce : Nat
  tmp_files : List (List (List (List (K × Option B))))
  sizes : List Nat
  num_dump : Nat
  exports : List (Nat × List (List (K × Option B)))
deriving DecidableEq

/-- A fresh append-mode dumper (BucketDumper.__init__ via
BucketDumperBase.__init__). -/
def initBucketDumper (n : Nat) : BucketDumperState K B :=
  ⟨n, List.replicate n [], List.replicate n 0, 0, []⟩

/-- One reducer's temporary-file list after one append-mode dump of its
bucket: an empty bucket is skipped (line 278); otherwise the frame is
appended to the reducer's single temporary, allocating it on first use
(BucketDumper._get_tmp reuses tmp_paths[0]). -/
def appendFilesAfterDump (files : List (List (List (K × Option B))))
    (bucket : List (K × Option B)) : List (List (List (K × Option B))) :=
  match bucket with
  | [] => files
  | _ =>
    match files with
    | [] => [[bucket]]
    | f :: rest => (f ++ [bucket]) :: rest

/-- Models BucketDumperBase.dump (lines 275 to 290) for the append-mode
dumper: every non-empty bucket contributes one frame to its reducer's
temporary and its item count to sizes; num_dump rises by one whether or
not anything was written.  is_final only tunes the allocator's
memory-backing hint and does not affect contents. -/
def bucketDump (st : BucketDumperState K B) (buckets : List (List (K × Option B)))
    (_is_final : Bool) : BucketDumperState K B :=
  { num_reduce := st.num_reduce
    tmp_files := (List.range st.num_reduce).map
      (fun i => appendFilesAfterDump (st.tmp_files.getD i []) (buckets.getD i []))
    sizes := (List.range st.num_reduce).map
      (fun i => st.sizes.getD i 0 + (buckets.getD i []).length)
    num_dump := st.num_dump + 1
    exports := st.exports }

/-- The file content BucketDumperBase.commit publishes for one reducer in
append mode: the reducer's temporary if one was written, otherwise the
empty-bucket path writes a single zero-item frame
(BucketDumperBase._dump_empty_bucket). -/
def appendPublished (files : List (List (List (K × Option B)))) :
    List (List (K × Option B)) :=
  match files.getLast? with
  | some f => f
  | none => [[]]

/-- Models BucketDumperBase.commit (lines 292 to 299) for the append-mode
dumper (whose _pre_commit is a no-op): for each reducer in order, export
the last temporary if any, else write and export an empty-bucket file. -/
def bucketCommit (st : BucketDumperState K B) : BucketDumperState K B :=
  { st with exports := (st.exports ++ (List.range st.num_reduce).map
      (fun i => (i, appendPublished (st.tmp_files.getD i [])))) }

/-- State of SortMergeBucketDumper: per reducer a list of spill files, each
a sorted stream, in write order. -/
structure SortMergeDumperState (K B : Type) where
  num_reduce : Nat
  tmp_files : List (List (List (K × Option B)))
  sizes : List Nat
  num_dump : Nat
  exports : List (Nat × List (K × Option B))
deriving DecidableEq

/-- A fresh sort-merge dumper. -/
def initSortMergeDumper (n : Nat) : SortMergeDumperState K B :=
  ⟨n, List.replicate n [], List.replicate n 0, 0, []⟩

/-- One reducer's spill-file list after one sort-merge dump: an empty
bucket is skipped; otherwise a fresh temporary holding the bucket's items
in ascending key order is appended (SortMergeBucketDumper._get_tmp and
_dump_bucket, lines 376 to 390). -/
def smFilesAfterDump (files : List (List (K × Option B)))
    (bucket : List (K × Option B)) : List (List (K × Option B)) :=
  match bucket with
  | [] => files
  | _ => files ++ [sortByKey bucket]

/-- Models BucketDumperBase.dump for the sort-merge dumper; sizes grows by
the stream length (f.tell abstracted as item count). -/
def smDump (st : SortMergeDumperState K B) (buckets : List (List (K × Option B)))
    (_is_final : Bool) : SortMergeDumperState K B :=
  { num_reduce := st.num_reduce
    tmp_files := (List.range st.num_reduce).map
      (fun i => smFilesAfterDump (st.tmp_files.getD i []) (buckets.getD i []))
    sizes := (List.range st.num_reduce).map
      (fun i => st.sizes.getD i 0 + (sortByKey (buckets.getD i [])).length)
    num_dump := st.num_dump + 1
    exports := st.exports }

/-- One reducer's spill-file list after SortMergeBucketDumper._pre_commit
(lines 358 to 374): with two or more spills the merged stream is written to
a further fresh temporary (via _get_tmp, so it joins the list); with zero
or one spill the list is unchanged (the zero/one cases export instead,
recorded in smPreCommitEvents). -/
def smPreCommitFiles (merge_combiners : Option B → Option B → Option B)
    (files : List (List (K × Option B))) : List (List (K × Option B)) :=
  match files with
  | [] => []
  | [f] => [f]
  | fs => fs ++ [mergeStreams merge_combiners fs]

/-- The export event _pre_commit performs for one reducer, if any: a
reducer with exactly one spill has it exported at line 363; a reducer with
no spill goes through _dump_empty_bucket (line 374), which writes an empty
stream to a temporary outside tmp_paths and exports it; a reducer with two
or more spills is not exported by _pre_commit. -/
def smPreOne (i : Nat) (files : List (List (K × Option B))) :
    Option (Nat × List (K × Option B)) :=
  match files with
  | [] => some (i, [])
  | [f] => some (i, f)
  | _ => none

/-- The export events _pre_commit itself performs, in reducer order. -/
def smPreCommitEvents (st : SortMergeDumperState K B) : List (Nat × List (K × Option B)) :=
  (List.range st.num_reduce).filterMap (fun i => smPreOne i (st.tmp_files.getD i []))

/-- The stream the base-class commit loop publishes for one reducer in
sort-merge mode, computed from the reducer's spill files as _pre_commit
left them: the last temporary if any, else a fresh empty-bucket stream. -/
def smPublished (merge_combiners : Option B → Option B → Option B)
    (files : List (List (K × Option B))) : List (K × Option B) :=
  ((smPreCommitFiles merge_combiners files).getLast?).getD []

/-- Models BucketDumperBase.commit for the sort-merge dumper: first
_pre_commit (merging multi-spill reducers and exporting zero/one-spill
reducers), then the base loop which for every reducer exports the last
temporary, or writes and exports an empty-bucket stream again when the
reducer still has none. -/
def smCommit (merge_combiners : Option B → Option B → Option B)
    (st : SortMergeDumperState K B) : SortMergeDumperState K B :=
  { st with
    tmp_files := ((List.range st.num_reduce).map
      (fun i => smPreCommitFiles merge_combiners (st.tmp_files.getD i [])))
    exports := (st.exports ++ smPreCommitEvents st ++ (List.range st.num_reduce).map
      (fun i => (i, smPublished merge_combiners (st.tmp_files.getD i [])))) }

end Dumpers

/-! ## The sort-merge shuffle-map pipeline (loop plus dumper) -/

section Pipeline

variable {K V B : Type} [LinearOrder K]

/-- The dumper state reached by ShuffleMapTask._run in sort-merge mode on
the given input with the given rotation points: one dump per spill segment
(rotation dumps at line 236 and the final dump at line 246), each segment
combined into fresh buckets after the preceding clear (line 237). -/
def smRunState (n : Nat) (get_partition : K → Nat)
    (create_combiner : V → Option B) (merge_value : Option B → V → Option B)
    (rotate : Nat → Bool) (input : List (K × V)) : SortMergeDumperState K B :=
  ((segmentsOf rotate 0 input).map
      (fun seg => combineAll get_partition create_combiner merge_value seg
        (List.replicate n []))).foldl
    (fun st bs => smDump st bs false) (initSortMergeDumper n)

/-- The stream published for reducer j after dumper.commit(aggregator) in
sort-merge mode. -/
def smTaskPublished (n : Nat) (get_partition : K → Nat)
    (create_combiner : V → Option B) (merge_value : Option B → V → Option B)
    (merge_combiners : Option B → Option B → Option B)
    (rotate : Nat → Bool) (input : List (K × V)) (j : Nat) : List (K × Option B) :=
  smPublished merge_combiners
    ((smRunState n get_partition create_combiner merge_value rotate input).tmp_files.getD j [])

end Pipeline

/-! ## Per-key semantics helpers

Specification-side functions used to state what the loop and the merger
compute for one key; they are compared against the embedded code in the
lemmas below. -/

section PerKey

variable {K V B : Type} [DecidableEq K]

/-- What one occurrence of key k with value v does to the stored combiner
for k (none meaning the key is absent). -/
def oneKeyStep (create_combiner : V → Option B) (merge_value : Option B → V → Option B)
    (acc : Option (Option B)) (v : V) : Option (Option B) :=
  let r := acc.getD none
  if r.isSome then some (merge_value r v) else some (create_combiner v)

/-- The stored combiner for one key after a run of values. -/
def oneKeyFold (create_combiner : V → Option B) (merge_value : Option B → V → Option B)
    (acc : Option (Option B)) (vs : List V) : Option (Option B) :=
  vs.foldl (oneKeyStep create_combiner merge_value) acc

/-- The values carried by key k in an input segment, in order. -/
def valsFor (k : K) (l : List (K × V)) : List V :=
  l.filterMap (fun kv => if kv.1 = k then some kv.2 else none)

/-- The intended combiner for a non-empty run of values: create on the
first, merge_value on the rest. -/
def ccFold (create_combiner : V → Option B) (merge_value : Option B → V → Option B)
    (vs : List V) : Option (Option B) :=
  match vs with
  | [] => none
  | v :: rest => some (rest.foldl merge_value (create_combiner v))

/-- Lifts merge_combiners to possibly-absent combiners: absent on one side
passes the other side through. -/
def optCombine (merge_combiners : Option B → Option B → Option B) :
    Option (Option B) → Option (Option B) → Option (Option B)
  | none, y => y
  | some a, none => some a
  | some a, some b => some (merge_combiners a b)

/-- The combiner a left-to-right merge of streams yields for one key, from
the per-stream combiners. -/
def mcFold (merge_combiners : Option B → Option B → Option B)
    (l : List (Option (Option B))) : Option (Option B) :=
  l.foldl (optCombine merge_combiners) none

end PerKey

/-! ## The append-mode dump sequence -/

section AppendRun

variable {K B : Type} [LinearOrder K]

/-- The append-mode dumper state after a sequence of dumps from a fresh
dumper (the rotation dumps and the final dump of ShuffleMapTask._run). -/
def bucketDumpsState (n : Nat) (dumps : List (List (List (K × Option B)))) :
    BucketDumperState K B :=
  dumps.foldl (fun st bs => bucketDump st bs false) (initBucketDumper n)

end AppendRun

/-- One reducer's append-mode temporary list as a function of its frames so
far: no temporary before the first frame, afterwards a single temporary
holding all frames. -/
def wrapFrames {α : Type} (fs : List α) : List (List α) :=
  match fs with
  | [] => []
  | _ => [fs]

/-! ## TTID (task.py lines 20 to 51)

Python strings are embedded as List Char.  Python renders an int in
decimal via str, and parses one via int, which tolerates surrounding
ASCII whitespace, an optional sign and leading zeros (the underscore
digit-group feature cannot arise here because the TTID string was already
split on every underscore; non-ASCII digits are not modelled). -/

namespace TTID

/-- The decimal digit characters. -/
def digitChar : Nat → Char
  | 0 => '0'
  | 1 => '1'
  | 2 => '2'
  | 3 => '3'
  | 4 => '4'
  | 5 => '5'
  | 6 => '6'
  | 7 => '7'
  | 8 => '8'
  | 9 => '9'
  | _ => '9'

/-- Fuel-driven digit expansion (the fuel only forces structural
termination; any fuel at least n gives the decimal digits of n, most
significant first). -/
def natReprCore : Nat → Nat → List Char
  | 0, _ => []
  | fuel + 1, n =>
    if n = 0 then [] else natReprCore fuel (n / 10) ++ [digitChar (n % 10)]

/-- Python str(n) for a natural number: its decimal digits, most
significant first. -/
def natRepr (n : Nat) : List Char :=
  if n = 0 then ['0'] else natReprCore n n

/-- Models TTID.make_taskset_id (line 42): the string stage_id.stage_try. -/
def make_taskset_id (stage_id stage_num_try : Nat) : List Char :=
  natRepr stage_id ++ '.' :: natRepr stage_num_try

/-- Models TTID.make_task_id (line 46): the string taskset_id_partition. -/
def make_task_id (taskset_id : List Char) (partition : Nat) : List Char :=
  taskset_id ++ '_' :: natRepr partition

/-- Models TTID.make_ttid (line 50): the string task_id.task_num_try. -/
def make_ttid (task_id : List Char) (task_num_try : Nat) : List Char :=
  task_id ++ '.' :: natRepr task_num_try

/-- The ASCII whitespace Python str.strip and int both ignore. -/
def pyWs (c : Char) : Bool :=
  c = ' ' || c = '\t' || c = '\n' || c = '\x0d' || c = '\x0b' || c = '\x0c'

/-- Strip leading and trailing whitespace. -/
def pyStrip (s : List Char) : List Char :=
  ((s.dropWhile pyWs).reverse.dropWhile pyWs).reverse

/-- The value of a string of decimal digits, most significant first. -/
def digitsToNat (s : List Char) : Nat :=
  s.foldl (fun a c => 10 * a + (c.toNat - 48)) 0

/-- A non-empty all-digit string evaluates to its decimal value; anything
else is rejected. -/
def digitsNat? (s : List Char) : Option Nat :=
  match s with
  | [] => none
  | _ => if s.all Char.isDigit then some (digitsToNat s) else none

/-- Python int(s) on an ASCII string: optional surrounding whitespace, an
optional single sign, then one or more decimal digits; ValueError is
modelled as none. -/
def pyInt (s : List Char) : Option Int :=
  match pyStrip s with
  | [] => none
  | c :: rest =>
    if c = '+' then (digitsNat? rest).map (fun n => (n : Int))
    else if c = '-' then (digitsNat? rest).map (fun n => -(n : Int))
    else (digitsNat? (c :: rest)).map (fun n => (n : Int))

/-- Python s.split(c): the maximal runs of characters between occurrences
of the separator c (never the empty list; a string without c yields the
singleton of itself). -/
def splitOnChar (c : Char) : List Char → List (List Char)
  | [] => [[]]
  | x :: xs =>
    match splitOnChar c xs with
    | [] => if x = c then [[], []] else [[x]]
    | h :: t => if x = c then [] :: h :: t else (x :: h) :: t

/-- Python s.rsplit(c, 1)[0]: everything before the last occurrence of c,
or s itself when c does not occur. -/
def rsplitHead (c : Char) (s : List Char) : List Char :=
  match s.reverse.dropWhile (fun x => decide (x ≠ c)) with
  | [] => s
  | _ :: rest => rest.reverse

/-- The fields TTID.__init__ computes from a ttid string.  stage_id,
stage_try, part and task_try come from Python int, hence are integers. -/
structure Parsed where
  stage_id : Int
  stage_try : Int
  part : Int
  task_try : Int
  taskset_id : List Char
  task_id : List Char
deriving DecidableEq, Repr

/-- Models TTID.__init__ (lines 34 to 39): split on underscore into
exactly two parts, split each part on a dot into exactly two integers, and
take task_id as everything before the last dot; any failure (wrong number
of parts, non-integer component) is a ValueError, modelled as none. -/
def ttidParse (s : List Char) : Option Parsed :=
  match splitOnChar '_' s with
  | [a, b] =>
    match splitOnChar '.' a, splitOnChar '.' b with
    | [s1, s2], [s3, s4] =>
      match pyInt s1, pyInt s2, pyInt s3, pyInt s4 with
      | some stid, some sttry, some p, some ttry =>
          some ⟨stid, sttry, p, ttry, a, rsplitHead '.' s⟩
      | _, _, _, _ => none
    | _, _ => none
  | _ => none

end TTID

/-! ## Helper lemmas on lists and dicts -/

theorem getD_map_range {α : Type} (f : Nat → α) (n j : Nat) (d : α) (h : j < n) :
    ((List.range n).map f).getD j d = f j := by
  simp [List.getD_eq_getElem?_getD, List.getElem?_map, List.getElem?_range h]

theorem getD_set {α : Type} (l : List α) (i j : Nat) (a d : α) :
    (l.set i a).getD j d = if i = j ∧ i < l.length then a else l.getD j d := by
  rcases eq_or_ne i j with h | h
  · subst h
    by_cases hi : i < l.length
    · simp [List.getD_eq_getElem?_getD, List.getElem?_set, hi]
    · simp [List.getD_eq_getElem?_getD, List.getElem?_set, hi,
        List.getElem?_eq_none (le_of_not_lt hi)]
  · simp [List.getD_eq_getElem?_getD, List.getElem?_set, h]

theorem getD_replicate {α : Type} (n i : Nat) (a d : α) (h : i < n) :
    (List.replicate n a).getD i d = a := by
  simp [List.getD_eq_getElem?_getD, List.getElem?_replicate, h]

section DictLemmas

variable {K : Type} [DecidableEq K] {β : Type}

theorem dictGet_dictInsert_self (k : K) (c : β) (l : List (K × β)) :
    dictGet k (dictInsert k c l) = some c := by
  induction l with
  | nil => simp [dictGet, dictInsert]
  | cons x rest ih =>
    rcases x with ⟨k', c'⟩
    by_cases h : k' = k <;> simp [dictGet, dictInsert, h, ih]

theorem dictGet_dictInsert_ne (k k2 : K) (c : β) (l : List (K × β)) (h : k ≠ k2) :
    dictGet k2 (dictInsert k c l) = dictGet k2 l := by
  induction l with
  | nil => simp [dictGet, dictInsert, h]
  | cons x rest ih =>
    rcases x with ⟨k', c'⟩
    by_cases hk : k' = k
    · subst hk
      simp [dictGet, dictInsert, h]
    · simp [dictGet, dictInsert, hk, ih]

end DictLemmas

section CombineStepLemmas

variable {K V B : Type} [DecidableEq K]

theorem combineStep_absent (cc : V → Option B) (mv : Option B → V → Option B)
    (bucket : List (K × Option B)) (k : K) (v : V) (h : dictGet k bucket = none) :
    combineStep cc mv bucket k v = dictInsert k (cc v) bucket := by
  simp [combineStep, h]

theorem combineStep_noneVal (cc : V → Option B) (mv : Option B → V → Option B)
    (bucket : List (K × Option B)) (k : K) (v : V) (h : dictGet k bucket = some none) :
    combineStep cc mv bucket k v = dictInsert k (cc v) bucket := by
  simp [combineStep, h]

theorem combineStep_someVal (cc : V → Option B) (mv : Option B → V → Option B)
    (bucket : List (K × Option B)) (k : K) (v : V) (b : B)
    (h : dictGet k bucket = some (some b)) :
    combineStep cc mv bucket k v = dictInsert k (mv (some b) v) bucket := by
  simp [combineStep, h]

end CombineStepLemmas

/-! ## TTID lemmas -/

namespace TTID

theorem digitChar_isDigit (d : Nat) (h : d < 10) : (digitChar d).isDigit = true := by
  interval_cases d <;> decide

theorem digitChar_toNat (d : Nat) (h : d < 10) : (digitChar d).toNat = 48 + d := by
  interval_cases d <;> decide

theorem isDigit_props (c : Char) (h : c.isDigit = true) :
    pyWs c = false ∧ c ≠ '.' ∧ c ≠ '_' ∧ c ≠ '+' ∧ c ≠ '-' := by
  have hne : ∀ w : Char, w.isDigit = false → c ≠ w := by
    intro w hw heq
    subst heq
    rw [h] at hw
    cases hw
  refine ⟨?_, hne '.' (by decide), hne '_' (by decide), hne '+' (by decide), hne '-' (by decide)⟩
  simp only [pyWs, Bool.or_eq_false_iff, decide_eq_false_iff_not]
  exact ⟨⟨⟨⟨⟨hne ' ' (by decide), hne '\t' (by decide)⟩, hne '\n' (by decide)⟩,
    hne '\x0d' (by decide)⟩, hne '\x0b' (by decide)⟩, hne '\x0c' (by decide)⟩

theorem natReprCore_eq_digits (fuel n : Nat) (h : n ≤ fuel) :
    natReprCore fuel n = ((Nat.digits 10 n).map digitChar).reverse := by
  induction fuel generalizing n with
  | zero =>
    have hn : n = 0 := Nat.le_zero.mp h
    subst hn
    simp [natReprCore]
  | succ fuel ih =>
    by_cases hn : n = 0
    · subst hn
      simp [natReprCore]
    · have hdiv : n / 10 ≤ fuel := by
        have : n / 10 < n := Nat.div_lt_self (Nat.pos_of_ne_zero hn) (by norm_num)
        omega
      simp only [natReprCore, if_neg hn]
      rw [ih _ hdiv, Nat.digits_def' (by norm_num : (1 : ℕ) < 10) (Nat.pos_of_ne_zero hn)]
      simp

theorem natRepr_eq_digits (n : Nat) :
    natRepr n = if n = 0 then ['0'] else ((Nat.digits 10 n).map digitChar).reverse := by
  by_cases h : n = 0
  · simp [natRepr, h]
  · simp only [natRepr, if_neg h]
    exact natReprCore_eq_digits n n le_rfl

theorem natRepr_ne_nil (n : Nat) : natRepr n ≠ [] := by
  by_cases h : n = 0
  · subst h
    decide
  · rw [natRepr_eq_digits, if_neg h]
    simp [Nat.digits_ne_nil_iff_ne_zero.mpr h]

theorem natRepr_all_digits (n : Nat) : ∀ c ∈ natRepr n, c.isDigit = true := by
  intro c hc
  by_cases h : n = 0
  · subst h
    have : natRepr 0 = ['0'] := by decide
    rw [this] at hc
    simp at hc
    subst hc
    decide
  · rw [natRepr_eq_digits, if_neg h] at hc
    simp only [List.mem_reverse, List.mem_map] at hc
    obtain ⟨d, hd, rfl⟩ := hc
    exact digitChar_isDigit d (Nat.digits_lt_base (by norm_num) hd)

theorem char_not_mem_natRepr (n : Nat) (c : Char) (hc : c.isDigit = false) :
    c ∉ natRepr n := by
  intro hmem
  have := natRepr_all_digits n c hmem
  rw [hc] at this
  cases this

theorem foldr_digits_eq_ofDigits (L : List Nat) (hL : ∀ d ∈ L, d < 10) :
    L.foldr (fun d a => 10 * a + ((digitChar d).toNat - 48)) 0 = Nat.ofDigits 10 L := by
  induction L with
  | nil => simp [Nat.ofDigits_nil]
  | cons d L ih =>
    have hd : d < 10 := hL d (List.mem_cons_self _ _)
    rw [List.foldr_cons, ih (fun x hx => hL x (List.mem_cons_of_mem _ hx)),
      Nat.ofDigits_cons, digitChar_toNat d hd]
    omega

theorem digitsToNat_natRepr (n : Nat) : digitsToNat (natRepr n) = n := by
  by_cases h : n = 0
  · subst h
    decide
  · rw [natRepr_eq_digits, if_neg h]
    simp only [digitsToNat, List.foldl_reverse]
    rw [List.foldr_map]
    rw [foldr_digits_eq_ofDigits _ (fun d hd => Nat.digits_lt_base (by norm_num) hd)]
    exact Nat.ofDigits_digits 10 n

theorem dropWhile_false {α : Type} (p : α → Bool) (l : List α)
    (h : ∀ c ∈ l, p c = false) : l.dropWhile p = l := by
  cases l with
  | nil => rfl
  | cons x xs => simp [List.dropWhile_cons, h x (List.mem_cons_self _ _)]

theorem dropWhile_append_of_all {α : Type} (p : α → Bool) (l m : List α)
    (h : ∀ c ∈ l, p c = true) : (l ++ m).dropWhile p = m.dropWhile p := by
  induction l with
  | nil => rfl
  | cons x xs ih =>
    simp only [List.cons_append, List.dropWhile_cons, h x (List.mem_cons_self _ _)]
    exact ih (fun c hc => h c (List.mem_cons_of_mem _ hc))

theorem pyStrip_id (s : List Char) (h : ∀ c ∈ s, pyWs c = false) : pyStrip s = s := by
  simp only [pyStrip]
  rw [dropWhile_false pyWs s h]
  rw [dropWhile_false pyWs s.reverse (fun c hc => h c (List.mem_reverse.mp hc))]
  exact List.reverse_reverse s

theorem digitsNat?_natRepr (n : Nat) : digitsNat? (natRepr n) = some n := by
  have hne := natRepr_ne_nil n
  have hall : (natRepr n).all Char.isDigit = true := by
    rw [List.all_eq_true]
    exact natRepr_all_digits n
  rcases hr : natRepr n with _ | ⟨c, rest⟩
  · exact absurd hr hne
  · rw [← hr]
    simp only [digitsNat?]
    rw [hr]
    simp only [← hr, hall, if_pos]
    rw [digitsToNat_natRepr]

theorem pyInt_natRepr (n : Nat) : pyInt (natRepr n) = some (n : Int) := by
  have hd := natRepr_all_digits n
  have hstrip : pyStrip (natRepr n) = natRepr n :=
    pyStrip_id _ (fun c hc => (isDigit_props c (hd c hc)).1)
  rcases hr : natRepr n with _ | ⟨c, rest⟩
  · exact absurd hr (natRepr_ne_nil n)
  · rw [hr] at hstrip
    have hcd : c.isDigit = true := hd c (by rw [hr]; exact List.mem_cons_self _ _)
    have h1 : c ≠ '+' := (isDigit_props c hcd).2.2.2.1
    have h2 : c ≠ '-' := (isDigit_props c hcd).2.2.2.2
    have hnum : digitsNat? (c :: rest) = some n := by
      rw [← hr]
      exact digitsNat?_natRepr n
    simp only [pyInt, hstrip]
    rw [if_neg h1, if_neg h2, hnum]
    rfl

theorem splitOnChar_ne_nil (c : Char) (s : List Char) : splitOnChar c s ≠ [] := by
  cases s with
  | nil => simp [splitOnChar]
  | cons x xs =>
    simp only [splitOnChar]
    rcases splitOnChar c xs with _ | ⟨h, t⟩ <;> by_cases hx : x = c <;> simp [hx]

theorem splitOnChar_not_mem (c : Char) (s : List Char) (h : c ∉ s) :
    splitOnChar c s = [s] := by
  induction s with
  | nil => rfl
  | cons x xs ih =>
    have hx : x ≠ c := fun heq => h (heq ▸ List.mem_cons_self _ _)
    have hxs : c ∉ xs := fun hmem => h (List.mem_cons_of_mem _ hmem)
    simp only [splitOnChar, ih hxs]
    simp [hx]

theorem splitOnChar_append (c : Char) (a b : List Char) (ha : c ∉ a) :
    splitOnChar c (a ++ c :: b) = a :: splitOnChar c b := by
  induction a with
  | nil =>
    simp only [List.nil_append, splitOnChar]
    rcases hs : splitOnChar c b with _ | ⟨h, t⟩
    · exact absurd hs (splitOnChar_ne_nil c b)
    · simp
  | cons x xs ih =>
    have hx : x ≠ c := fun heq => ha (heq ▸ List.mem_cons_self _ _)
    have hxs : c ∉ xs := fun hmem => ha (List.mem_cons_of_mem _ hmem)
    simp only [List.cons_append, splitOnChar, List.append_eq]
    rw [ih hxs]
    simp [hx]

theorem splitOnChar_eq_singleton (c : Char) (s y : List Char)
    (h : splitOnChar c s = [y]) : s = y ∧ c ∉ s := by
  induction s generalizing y with
  | nil =>
    simp only [splitOnChar] at h
    cases h
    simp
  | cons x xs ih =>
    simp only [splitOnChar] at h
    rcases hs : splitOnChar c xs with _ | ⟨hh, t⟩
    · exact absurd hs (splitOnChar_ne_nil c xs)
    · rw [hs] at h
      by_cases hx : x = c
      · simp [hx] at h
      · simp only [if_neg hx] at h
        cases h
        obtain ⟨rfl, hmem⟩ := ih hh (by rw [hs])
        refine ⟨rfl, ?_⟩
        simp only [List.mem_cons]
        rintro (rfl | hmem2)
        · exact hx rfl
        · exact hmem hmem2

theorem splitOnChar_eq_pair (c : Char) (s a b : List Char)
    (h : splitOnChar c s = [a, b]) : s = a ++ c :: b ∧ c ∉ a ∧ c ∉ b := by
  induction s generalizing a with
  | nil => simp [splitOnChar] at h
  | cons x xs ih =>
    simp only [splitOnChar] at h
    rcases hs : splitOnChar c xs with _ | ⟨hh, t⟩
    · exact absurd hs (splitOnChar_ne_nil c xs)
    · rw [hs] at h
      by_cases hx : x = c
      · subst hx
        simp only [if_pos rfl] at h
        cases h
        obtain ⟨rfl, hmem⟩ := splitOnChar_eq_singleton x xs b (by rw [hs])
        exact ⟨rfl, by simp, hmem⟩
      · simp only [if_neg hx] at h
        cases h
        obtain ⟨rfl, hma, hmb⟩ := ih _ (by rw [hs])
        refine ⟨rfl, ?_, hmb⟩
        simp only [List.mem_cons]
        rintro (rfl | hmem2)
        · exact hx rfl
        · exact hma hmem2

theorem rsplitHead_append (c : Char) (A B : List Char) (hB : c ∉ B) :
    rsplitHead c (A ++ c :: B) = A := by
  have hrev : (A ++ c :: B).reverse = B.reverse ++ c :: A.reverse := by
    simp
  simp only [rsplitHead, hrev]
  rw [dropWhile_append_of_all _ B.reverse (c :: A.reverse)
    (fun x hx => by
      have : x ≠ c := fun heq => hB (heq ▸ List.mem_reverse.mp hx)
      simp [this])]
  simp [List.dropWhile_cons]

theorem ttid_format_parse (S T P R : Nat) :
    ttidParse (make_ttid (make_task_id (make_taskset_id S T) P) R) =
      some ⟨(S : Int), (T : Int), (P : Int), (R : Int),
        make_taskset_id S T, make_task_id (make_taskset_id S T) P⟩ := by
  have hdS : '.' ∉ natRepr S := char_not_mem_natRepr S '.' (by decide)
  have hdT : '.' ∉ natRepr T := char_not_mem_natRepr T '.' (by decide)
  have hdP : '.' ∉ natRepr P := char_not_mem_natRepr P '.' (by decide)
  have hdR : '.' ∉ natRepr R := char_not_mem_natRepr R '.' (by decide)
  have huS : '_' ∉ natRepr S := char_not_mem_natRepr S '_' (by decide)
  have huT : '_' ∉ natRepr T := char_not_mem_natRepr T '_' (by decide)
  have huP : '_' ∉ natRepr P := char_not_mem_natRepr P '_' (by decide)
  have huR : '_' ∉ natRepr R := char_not_mem_natRepr R '_' (by decide)
  have hu_ts : '_' ∉ make_taskset_id S T := by
    simp only [make_taskset_id, List.mem_append, List.mem_cons]
    rintro (h | h | h)
    · exact huS h
    · exact absurd h (by decide)
    · exact huT h
  have hu_pr : '_' ∉ natRepr P ++ '.' :: natRepr R := by
    simp only [List.mem_append, List.mem_cons]
    rintro (h | h | h)
    · exact huP h
    · exact absurd h (by decide)
    · exact huR h
  have hshape : make_ttid (make_task_id (make_taskset_id S T) P) R =
      make_taskset_id S T ++ '_' :: (natRepr P ++ '.' :: natRepr R) := by
    simp [make_ttid, make_task_id, List.append_assoc]
  have hsplit1 : splitOnChar '_' (make_ttid (make_task_id (make_taskset_id S T) P) R) =
      [make_taskset_id S T, natRepr P ++ '.' :: natRepr R] := by
    rw [hshape, splitOnChar_append _ _ _ hu_ts, splitOnChar_not_mem _ _ hu_pr]
  have hsplit2 : splitOnChar '.' (make_taskset_id S T) = [natRepr S, natRepr T] := by
    simp only [make_taskset_id]
    rw [splitOnChar_append _ _ _ hdS, splitOnChar_not_mem _ _ hdT]
  have hsplit3 : splitOnChar '.' (natRepr P ++ '.' :: natRepr R) = [natRepr P, natRepr R] := by
    rw [splitOnChar_append _ _ _ hdP, splitOnChar_not_mem _ _ hdR]
  have hrs : rsplitHead '.' (make_ttid (make_task_id (make_taskset_id S T) P) R) =
      make_task_id (make_taskset_id S T) P := by
    simp only [make_ttid]
    exact rsplitHead_append '.' _ _ hdR
  simp only [ttidParse, hsplit1, hsplit2, hsplit3, pyInt_natRepr, hrs]

/-- C1: formatting (S, T, P, R) with the make functions and parsing the
result with TTID recovers the four components along with taskset_id S.T
and task_id S.T_P; the formatter is injective; and the literal "3.2_17.1"
parses to stage 3, stage try 2, partition 17, task try 1. -/
theorem claim_ttid_roundtrip (S T P R : Nat) (_hS : 1 ≤ S) (_hT : 1 ≤ T) :
    (ttidParse (make_ttid (make_task_id (make_taskset_id S T) P) R) =
      some ⟨(S : Int), (T : Int), (P : Int), (R : Int),
        make_taskset_id S T, make_task_id (make_taskset_id S T) P⟩) ∧
    (∀ S2 T2 P2 R2 : Nat,
      make_ttid (make_task_id (make_taskset_id S2 T2) P2) R2 =
        make_ttid (make_task_id (make_taskset_id S T) P) R →
      S2 = S ∧ T2 = T ∧ P2 = P ∧ R2 = R) ∧
    ttidParse ("3.2_17.1".data) = some ⟨3, 2, 17, 1, "3.2".data, "3.2_17".data⟩ := by
  refine ⟨ttid_format_parse S T P R, ?_, by decide⟩
  intro S2 T2 P2 R2 heq
  have h2 := ttid_format_parse S2 T2 P2 R2
  rw [heq, ttid_format_parse S T P R] at h2
  simp only [Option.some.injEq, Parsed.mk.injEq] at h2
  obtain ⟨e1, e2, e3, e4, -, -⟩ := h2
  refine ⟨?_, ?_, ?_, ?_⟩
  · exact_mod_cast e1.symm
  · exact_mod_cast e2.symm
  · exact_mod_cast e3.symm
  · exact_mod_cast e4.symm

/-- Witness for C1 at the spec's concrete input (3, 2, 17, 1). -/
theorem claim_ttid_roundtrip_witness :
    ttidParse (make_ttid (make_task_id (make_taskset_id 3 2) 17) 1) =
      some ⟨3, 2, 17, 1, make_taskset_id 3 2, make_task_id (make_taskset_id 3 2) 17⟩ :=
  (claim_ttid_roundtrip 3 2 17 1 (by decide) (by decide)).1

/-- C7 (amended): the parser accepts exactly the strings of shape
A.B_C.D whose four components are Python integer literals (optional
surrounding whitespace, optional sign, one or more decimal digits, hence
also non-canonical renderings such as leading zeros); every other string
fails with a ValueError (none). -/
theorem claim_ttid_parser_totality (s : List Char) :
    (ttidParse s).isSome = true ↔
      ∃ s1 s2 s3 s4 : List Char,
        s = s1 ++ '.' :: s2 ++ '_' :: s3 ++ '.' :: s4 ∧
        '.' ∉ s1 ∧ '.' ∉ s2 ∧ '.' ∉ s3 ∧ '.' ∉ s4 ∧
        '_' ∉ s1 ∧ '_' ∉ s2 ∧ '_' ∉ s3 ∧ '_' ∉ s4 ∧
        (pyInt s1).isSome = true ∧ (pyInt s2).isSome = true ∧
        (pyInt s3).isSome = true ∧ (pyInt s4).isSome = true := by
  constructor
  · intro h
    rcases h1 : splitOnChar '_' s with _ | ⟨a, t1⟩
    · exact absurd h1 (splitOnChar_ne_nil _ _)
    rcases t1 with _ | ⟨b, t2⟩
    · simp only [ttidParse, h1] at h
      cases h
    rcases t2 with _ | ⟨x, t3⟩
    case cons.cons.cons =>
      simp only [ttidParse, h1] at h
      cases h
    obtain ⟨hs_ab, hu_a, hu_b⟩ := splitOnChar_eq_pair '_' s a b h1
    rcases h2 : splitOnChar '.' a with _ | ⟨s1, u1⟩
    · exact absurd h2 (splitOnChar_ne_nil _ _)
    rcases u1 with _ | ⟨s2, u2⟩
    · simp only [ttidParse, h1, h2] at h
      cases h
    rcases u2 with _ | ⟨y, u3⟩
    case cons.cons.cons =>
      simp only [ttidParse, h1, h2] at h
      cases h
    rcases h3 : splitOnChar '.' b with _ | ⟨s3, w1⟩
    · exact absurd h3 (splitOnChar_ne_nil _ _)
    rcases w1 with _ | ⟨s4, w2⟩
    · simp only [ttidParse, h1, h2, h3] at h
      cases h
    rcases w2 with _ | ⟨z, w3⟩
    case cons.cons.cons =>
      simp only [ttidParse, h1, h2, h3] at h
      cases h
    obtain ⟨ha_s, hd1, hd2⟩ := splitOnChar_eq_pair '.' a s1 s2 h2
    obtain ⟨hb_s, hd3, hd4⟩ := splitOnChar_eq_pair '.' b s3 s4 h3
    rcases hp1 : pyInt s1 with _ | v1
    · simp only [ttidParse, h1, h2, h3, hp1] at h
      cases h
    rcases hp2 : pyInt s2 with _ | v2
    · simp only [ttidParse, h1, h2, h3, hp1, hp2] at h
      cases h
    rcases hp3 : pyInt s3 with _ | v3
    · simp only [ttidParse, h1, h2, h3, hp1, hp2, hp3] at h
      cases h
    rcases hp4 : pyInt s4 with _ | v4
    · simp only [ttidParse, h1, h2, h3, hp1, hp2, hp3, hp4] at h
      cases h
    refine ⟨s1, s2, s3, s4, ?_, hd1, hd2, hd3, hd4, ?_, ?_, ?_, ?_, ?_, ?_, ?_, ?_⟩
    · rw [hs_ab, ha_s, hb_s]
      simp [List.append_assoc]
    · exact fun hm => hu_a (by rw [ha_s]; exact List.mem_append_left _ hm)
    · exact fun hm => hu_a (by
        rw [ha_s]
        exact List.mem_append_right _ (List.mem_cons_of_mem _ hm))
    · exact fun hm => hu_b (by rw [hb_s]; exact List.mem_append_left _ hm)
    · exact fun hm => hu_b (by
        rw [hb_s]
        exact List.mem_append_right _ (List.mem_cons_of_mem _ hm))
    · rw [hp1]; rfl
    · rw [hp2]; rfl
    · rw [hp3]; rfl
    · rw [hp4]; rfl
  · rintro ⟨s1, s2, s3, s4, rfl, hd1, hd2, hd3, hd4, hu1, hu2, hu3, hu4,
      hp1, hp2, hp3, hp4⟩
    have hu_a : '_' ∉ s1 ++ '.' :: s2 := by
      simp only [List.mem_append, List.mem_cons]
      rintro (h | h | h)
      · exact hu1 h
      · exact absurd h (by decide)
      · exact hu2 h
    have hu_b : '_' ∉ s3 ++ '.' :: s4 := by
      simp only [List.mem_append, List.mem_cons]
      rintro (h | h | h)
      · exact hu3 h
      · exact absurd h (by decide)
      · exact hu4 h
    have hshape : s1 ++ '.' :: s2 ++ '_' :: s3 ++ '.' :: s4 =
        (s1 ++ '.' :: s2) ++ '_' :: (s3 ++ '.' :: s4) := by
      simp [List.append_assoc]
    have h1 : splitOnChar '_' (s1 ++ '.' :: s2 ++ '_' :: s3 ++ '.' :: s4) =
        [s1 ++ '.' :: s2, s3 ++ '.' :: s4] := by
      rw [hshape, splitOnChar_append _ _ _ hu_a, splitOnChar_not_mem _ _ hu_b]
    have h2 : splitOnChar '.' (s1 ++ '.' :: s2) = [s1, s2] := by
      rw [splitOnChar_append _ _ _ hd1, splitOnChar_not_mem _ _ hd2]
    have h3 : splitOnChar '.' (s3 ++ '.' :: s4) = [s3, s4] := by
      rw [splitOnChar_append _ _ _ hd3, splitOnChar_not_mem _ _ hd4]
    obtain ⟨v1, hv1⟩ := Option.isSome_iff_exists.mp hp1
    obtain ⟨v2, hv2⟩ := Option.isSome_iff_exists.mp hp2
    obtain ⟨v3, hv3⟩ := Option.isSome_iff_exists.mp hp3
    obtain ⟨v4, hv4⟩ := Option.isSome_iff_exists.mp hp4
    simp only [ttidParse, h1, h2, h3, hv1, hv2, hv3, hv4]
    rfl

/-- C7 counterexample: "03.2_17.1" is not the canonical rendering of any
(S, T, P, R) with S, T at least 1 and P, R at least 0 (the canonical
rendering of its parse (3, 2, 17, 1) is "3.2_17.1"), yet the parser
accepts it. -/
theorem claim_ttid_parser_totality_counterexample :
    (ttidParse ("03.2_17.1".data)).isSome = true ∧
    (∀ S T P R : Nat,
      make_ttid (make_task_id (make_taskset_id S T) P) R ≠ ("03.2_17.1".data)) := by
  constructor
  · decide
  · intro S T P R heq
    have h1 := ttid_format_parse S T P R
    rw [heq] at h1
    have h2 : ttidParse ("03.2_17.1".data) =
        some ⟨3, 2, 17, 1, "03.2".data, "03.2_17".data⟩ := by decide
    rw [h2] at h1
    simp only [Option.some.injEq, Parsed.mk.injEq] at h1
    obtain ⟨hS, hT, -, -, hts, -⟩ := h1
    have hS2 : S = 3 := by exact_mod_cast hS.symm
    have hT2 : T = 2 := by exact_mod_cast hT.symm
    subst hS2
    subst hT2
    exact absurd hts (by decide)

end TTID

/-! ## Merge lemmas -/

section MergeLemmas

variable {K B : Type} [LinearOrder K]

theorem merge2Core_fuel_inv (mc : Option B → Option B → Option B) :
    ∀ (f1 f2 : Nat) (l1 l2 : List (K × Option B)),
      l1.length + l2.length ≤ f1 → l1.length + l2.length ≤ f2 →
      merge2Core mc f1 l1 l2 = merge2Core mc f2 l1 l2 := by
  intro f1
  induction f1 with
  | zero =>
    intro f2 l1 l2 h1 h2
    have hl1 : l1 = [] := List.eq_nil_of_length_eq_zero (by omega)
    have hl2 : l2 = [] := List.eq_nil_of_length_eq_zero (by omega)
    subst hl1
    subst hl2
    cases f2 <;> rfl
  | succ f1 ih =>
    intro f2 l1 l2 h1 h2
    cases f2 with
    | zero =>
      have hl1 : l1 = [] := List.eq_nil_of_length_eq_zero (by omega)
      have hl2 : l2 = [] := List.eq_nil_of_length_eq_zero (by omega)
      subst hl1
      subst hl2
      rfl
    | succ g =>
      cases l1 with
      | nil => rfl
      | cons x t1 =>
        cases l2 with
        | nil => rfl
        | cons y t2 =>
          rcases x with ⟨k1, c1⟩
          rcases y with ⟨k2, c2⟩
          simp only [List.length_cons] at h1 h2
          simp only [merge2Core]
          by_cases h12 : k1 < k2
          · simp only [if_pos h12]
            rw [ih g t1 ((k2, c2) :: t2)
              (by simp only [List.length_cons]; omega)
              (by simp only [List.length_cons]; omega)]
          · by_cases h21 : k2 < k1
            · simp only [if_neg h12, if_pos h21]
              rw [ih g ((k1, c1) :: t1) t2
                (by simp only [List.length_cons]; omega)
                (by simp only [List.length_cons]; omega)]
            · simp only [if_neg h12, if_neg h21]
              rw [ih g t1 t2 (by omega) (by omega)]

theorem merge2_nil_left (mc : Option B → Option B → Option B)
    (l2 : List (K × Option B)) : merge2 mc [] l2 = l2 := by
  cases l2 <;> rfl

theorem merge2_nil_right (mc : Option B → Option B → Option B)
    (l1 : List (K × Option B)) : merge2 mc l1 [] = l1 := by
  cases l1 <;> rfl

theorem merge2_cons_cons (mc : Option B → Option B → Option B)
    (k1 k2 : K) (c1 c2 : Option B) (t1 t2 : List (K × Option B)) :
    merge2 mc ((k1, c1) :: t1) ((k2, c2) :: t2) =
      if k1 < k2 then (k1, c1) :: merge2 mc t1 ((k2, c2) :: t2)
      else if k2 < k1 then (k2, c2) :: merge2 mc ((k1, c1) :: t1) t2
      else (k1, mc c1 c2) :: merge2 mc t1 t2 := by
  show merge2Core mc ((t1.length + 1 + t2.length) + 1) _ _ = _
  simp only [merge2Core]
  by_cases h12 : k1 < k2
  · simp only [if_pos h12]
    rw [merge2Core_fuel_inv mc (t1.length + 1 + t2.length) (t1.length + ((k2, c2) :: t2).length)
      t1 ((k2, c2) :: t2) (by simp only [List.length_cons]; omega)
      (by simp only [List.length_cons]; omega)]
    rfl
  · by_cases h21 : k2 < k1
    · simp only [if_neg h12, if_pos h21]
      rw [merge2Core_fuel_inv mc (t1.length + 1 + t2.length)
        (((k1, c1) :: t1).length + t2.length) ((k1, c1) :: t1) t2
        (by simp only [List.length_cons]; omega)
        (by simp only [List.length_cons]; omega)]
      rfl
    · simp only [if_neg h12, if_neg h21]
      rw [merge2Core_fuel_inv mc (t1.length + 1 + t2.length) (t1.length + t2.length)
        t1 t2 (by omega) (by omega)]
      rfl

end MergeLemmas

/-! ## Export counting -/

theorem countP_fst_filterMap_range {α : Type} (f : Nat → Option (Nat × α))
    (hf : ∀ i e, f i = some e → e.1 = i) (n j : Nat) (hj : j < n) :
    ((List.range n).filterMap f).countP (fun e => e.1 == j) =
      if (f j).isSome then 1 else 0 := by
  induction n with
  | zero => omega
  | succ n ih =>
    rw [List.range_succ, List.filterMap_append, List.countP_append]
    rcases Nat.lt_or_ge j n with h | h
    · have h2 : (List.filterMap f [n]).countP (fun e => e.1 == j) = 0 := by
        rcases hfn : f n with _ | e
        · simp [List.filterMap_cons, hfn]
        · have he : e.1 = n := hf n e hfn
          have : ¬ (e.1 == j) = true := by
            rw [he]
            simp
            omega
          simp [List.filterMap_cons, hfn, List.countP_cons, this]
      rw [ih h, h2]
      omega
    · have hjn : j = n := by omega
      subst hjn
      have h1 : ((List.range j).filterMap f).countP (fun e => e.1 == j) = 0 := by
        rw [List.countP_eq_zero]
        intro e he
        obtain ⟨i, hi, hfi⟩ := List.mem_filterMap.mp he
        have : e.1 = i := hf i e hfi
        have hilt : i < j := List.mem_range.mp hi
        simp [this]
        omega
      rw [h1]
      rcases hfn : f j with _ | e
      · simp [List.filterMap_cons, hfn]
      · have he : e.1 = j := hf j e hfn
        simp [List.filterMap_cons, hfn, List.countP_cons, he]

theorem countP_fst_map_range {α : Type} (g : Nat → α) (n j : Nat) (hj : j < n) :
    (((List.range n).map (fun i => (i, g i))).countP (fun e => e.1 == j)) = 1 := by
  induction n with
  | zero => omega
  | succ n ih =>
    rw [List.range_succ, List.map_append, List.countP_append]
    rcases Nat.lt_or_ge j n with h | h
    · rw [ih h]
      have hne : ¬ (((n, g n) : Nat × α).1 == j) = true := by
        simp
        omega
      simp [List.countP_cons, hne]
    · have hjn : j = n := by omega
      subst hjn
      have h1 : ((List.range j).map (fun i => (i, g i))).countP (fun e => e.1 == j) = 0 := by
        rw [List.countP_eq_zero]
        intro e he
        obtain ⟨i, hi, rfl⟩ := List.mem_map.mp he
        have hilt : i < j := List.mem_range.mp hi
        simp
        omega
      rw [h1]
      simp [List.countP_cons]

/-! ## C3: published files and export counts at commit -/

/-- C3 (amended): commit publishes a file for every reducer in both modes,
but the export counts differ: the append-mode dumper exports exactly once
per reducer (the written temporary, or one zero-item frame for an empty
reducer); the sort-merge dumper exports exactly once for a reducer with at
least two spill files, and exactly twice for a reducer with zero or one
spill file, because _pre_commit exports it and the base commit loop then
exports it again. -/
theorem claim_empty_bucket_exports {K B : Type} [LinearOrder K]
    (sta : BucketDumperState K B) (sts : SortMergeDumperState K B)
    (mc : Option B → Option B → Option B) (j : Nat)
    (hja : j < sta.num_reduce) (hjs : j < sts.num_reduce) :
    (((bucketCommit sta).exports.drop sta.exports.length).countP (fun e => e.1 == j) = 1) ∧
    (((smCommit mc sts).exports.drop sts.exports.length).countP (fun e => e.1 == j) =
      if 2 ≤ (sts.tmp_files.getD j []).length then 1 else 2) := by
  constructor
  · have hdrop : (bucketCommit sta).exports.drop sta.exports.length =
        (List.range sta.num_reduce).map
          (fun i => (i, appendPublished (sta.tmp_files.getD i []))) := by
      simp [bucketCommit, List.drop_left]
    rw [hdrop]
    exact countP_fst_map_range _ _ _ hja
  · have hdrop : (smCommit mc sts).exports.drop sts.exports.length =
        smPreCommitEvents sts ++ (List.range sts.num_reduce).map
          (fun i => (i, smPublished mc (sts.tmp_files.getD i []))) := by
      simp [smCommit, List.append_assoc, List.drop_left]
    rw [hdrop, List.countP_append]
    rw [countP_fst_map_range _ _ _ hjs]
    have hpre := countP_fst_filterMap_range
      (fun i => smPreOne i (sts.tmp_files.getD i []))
      (by
        intro i e he
        have he2 : smPreOne i (sts.tmp_files.getD i []) = some e := he
        clear he
        rcases hfi : sts.tmp_files.getD i [] with _ | ⟨x, t⟩
        · rw [hfi] at he2
          simp only [smPreOne] at he2
          cases he2
          rfl
        · rcases t with _ | ⟨y, t2⟩
          · rw [hfi] at he2
            simp only [smPreOne] at he2
            cases he2
            rfl
          · rw [hfi] at he2
            simp only [smPreOne] at he2
            cases he2)
      sts.num_reduce j hjs
    have hpre2 : (smPreCommitEvents sts).countP (fun e => e.1 == j) =
        if (smPreOne j (sts.tmp_files.getD j [])).isSome = true then 1 else 0 := hpre
    rw [hpre2]
    rcases hfj : sts.tmp_files.getD j [] with _ | ⟨x, t⟩
    · simp [smPreOne]
    · rcases t with _ | ⟨y, t2⟩
      · simp [smPreOne]
      · simp [smPreOne, List.length_cons]

/-- C3 counterexample: a sort-merge dumper over a single reducer whose
bucket never received input ends commit with two exports to the reducer's
slot (the empty-bucket export of _pre_commit and the repeated empty-bucket
export of the base commit loop), not exactly one. -/
theorem claim_empty_bucket_exports_counterexample :
    (smCommit (fun a _ => a)
        (initSortMergeDumper 1 : SortMergeDumperState Nat Nat)).exports =
      [(0, []), (0, [])] ∧
    ((smCommit (fun a _ => a)
        (initSortMergeDumper 1 : SortMergeDumperState Nat Nat)).exports.countP
      (fun e => e.1 == 0) = 2) ∧ (2 : Nat) ≠ 1 := by
  decide

/-- Witness for C3 at a concrete input: append mode with two reducers, one
dump writing only reducer 0; each reducer still gets exactly one export. -/
theorem claim_empty_bucket_exports_witness :
    ((bucketCommit (bucketDump (initBucketDumper 2 : BucketDumperState Nat Nat)
        [[(0, some 1)], []] true)).exports.drop
      (bucketDump (initBucketDumper 2 : BucketDumperState Nat Nat)
        [[(0, some 1)], []] true).exports.length).countP (fun e => e.1 == 1) = 1 :=
  (claim_empty_bucket_exports
    (bucketDump (initBucketDumper 2 : BucketDumperState Nat Nat) [[(0, some 1)], []] true)
    (initSortMergeDumper 2 : SortMergeDumperState Nat Nat)
    (fun a _ => a) 1 (by decide) (by decide)).1

/-! ## C10: dump skips empty buckets, counts every call -/

theorem appendFilesAfterDump_wrapFrames {K B : Type} [LinearOrder K]
    (fs : List (List (K × Option B))) (b : List (K × Option B)) :
    appendFilesAfterDump (wrapFrames fs) b =
      wrapFrames (fs ++ if b.isEmpty then [] else [b]) := by
  cases b with
  | nil => simp [appendFilesAfterDump, List.isEmpty_nil]
  | cons x bs =>
    cases fs with
    | nil => rfl
    | cons f fs2 => rfl

theorem bucketDumpsState_tmp_files {K B : Type} [LinearOrder K] (j : Nat) :
    ∀ (dumps : List (List (List (K × Option B)))) (st : BucketDumperState K B)
      (fs : List (List (K × Option B))),
      j < st.num_reduce →
      st.tmp_files.getD j [] = wrapFrames fs →
      ((dumps.foldl (fun st bs => bucketDump st bs false) st).num_reduce = st.num_reduce ∧
       (dumps.foldl (fun st bs => bucketDump st bs false) st).tmp_files.getD j [] =
        wrapFrames (fs ++ (dumps.map (fun bs => bs.getD j [])).filter
          (fun b => !b.isEmpty))) := by
  intro dumps
  induction dumps with
  | nil =>
    intro st fs hj hst
    simpa using hst
  | cons bs rest ih =>
    intro st fs hj hst
    have hstep : (bucketDump st bs false).tmp_files.getD j [] =
        appendFilesAfterDump (st.tmp_files.getD j []) (bs.getD j []) := by
      simp only [bucketDump]
      exact getD_map_range _ _ _ _ hj
    have hstep2 : (bucketDump st bs false).tmp_files.getD j [] =
        wrapFrames (fs ++ if (bs.getD j []).isEmpty then [] else [bs.getD j []]) := by
      rw [hstep, hst, appendFilesAfterDump_wrapFrames]
    have hn : (bucketDump st bs false).num_reduce = st.num_reduce := rfl
    have := ih (bucketDump st bs false)
      (fs ++ if (bs.getD j []).isEmpty then [] else [bs.getD j []])
      (by rw [hn]; exact hj) hstep2
    rcases this with ⟨h1, h2⟩
    refine ⟨by rw [List.foldl_cons]; rw [h1]; exact hn, ?_⟩
    rw [List.foldl_cons, h2, List.map_cons, List.filter_cons]
    cases hbe : (bs.getD j []).isEmpty with
    | true => simp [hbe]
    | false => simp [hbe, List.append_assoc]

/-- C10: a dump call skips a bucket that is empty at that moment (no frame
or temporary is written for its reducer and the tracked byte count is
unchanged, in both modes), increments num_dump by exactly one whether or
not anything was written, and consequently an append-mode published file
holds exactly one frame per dump in which the reducer's bucket was
non-empty (the zero-item empty-bucket frame standing in when there was
none). -/
theorem claim_dump_skips_empty_buckets {K B : Type} [LinearOrder K]
    (st : BucketDumperState K B) (sts : SortMergeDumperState K B)
    (buckets : List (List (K × Option B))) (fin : Bool) (j : Nat)
    (hj : j < st.num_reduce) (hjs : j < sts.num_reduce)
    (n : Nat) (dumps : List (List (List (K × Option B)))) (hjn : j < n) :
    ((buckets.getD j []).isEmpty = true →
      (bucketDump st buckets fin).tmp_files.getD j [] = st.tmp_files.getD j [] ∧
      (bucketDump st buckets fin).sizes.getD j 0 = st.sizes.getD j 0 ∧
      (smDump sts buckets fin).tmp_files.getD j [] = sts.tmp_files.getD j [] ∧
      (smDump sts buckets fin).sizes.getD j 0 = sts.sizes.getD j 0) ∧
    ((bucketDump st buckets fin).num_dump = st.num_dump + 1) ∧
    ((smDump sts buckets fin).num_dump = sts.num_dump + 1) ∧
    ((dumps.map (fun bs => bs.getD j [])).filter (fun b => !b.isEmpty) ≠ [] →
      appendPublished ((bucketDumpsState n dumps).tmp_files.getD j []) =
        (dumps.map (fun bs => bs.getD j [])).filter (fun b => !b.isEmpty)) ∧
    ((dumps.map (fun bs => bs.getD j [])).filter (fun b => !b.isEmpty) = [] →
      appendPublished ((bucketDumpsState n dumps).tmp_files.getD j []) = [[]]) := by
  have hchar := (bucketDumpsState_tmp_files j dumps (initBucketDumper n) []
    (by simpa [initBucketDumper] using hjn)
    (by simp [initBucketDumper, wrapFrames, getD_replicate _ _ _ _ hjn])).2
  refine ⟨?_, rfl, rfl, ?_, ?_⟩
  · intro hbe
    have hempty : buckets.getD j [] = [] := List.isEmpty_iff.mp hbe
    refine ⟨?_, ?_, ?_, ?_⟩
    · simp only [bucketDump]
      rw [getD_map_range _ _ _ _ hj, hempty]
      rfl
    · simp only [bucketDump]
      rw [getD_map_range _ _ _ _ hj, hempty]
      rfl
    · simp only [smDump]
      rw [getD_map_range _ _ _ _ hjs, hempty]
      rfl
    · simp only [smDump]
      rw [getD_map_range _ _ _ _ hjs, hempty]
      rfl
  · intro hne
    rw [bucketDumpsState, hchar]
    rcases hfr : (dumps.map (fun bs => bs.getD j [])).filter (fun b => !b.isEmpty) with
      _ | ⟨f, fr⟩
    · exact absurd hfr hne
    · rw [hfr]
      rfl
  · intro hnil
    rw [bucketDumpsState, hchar, hnil]
    rfl

/-- Witness for C10 at a concrete input: two dumps over two reducers where
reducer 1's bucket is always empty: its published file is the single
zero-item frame. -/
theorem claim_dump_skips_empty_buckets_witness :
    appendPublished ((bucketDumpsState 2
        [[[((0 : Nat), (some 1 : Option Nat))], []], [[], []]]).tmp_files.getD 1 []) =
      [[]] :=
  (claim_dump_skips_empty_buckets
    (initBucketDumper 2 : BucketDumperState Nat Nat)
    (initSortMergeDumper 2 : SortMergeDumperState Nat Nat)
    [[], []] true 1 (by decide) (by decide) 2
    [[[((0 : Nat), (some 1 : Option Nat))], []], [[], []]] (by decide)).2.2.2.2 (by decide)

/-! ## Dict keys -/

section DictKeyLemmas

variable {K : Type} [DecidableEq K] {β : Type}

theorem dictGet_eq_none_iff (k : K) (l : List (K × β)) :
    dictGet k l = none ↔ k ∉ dictKeys l := by
  induction l with
  | nil => simp [dictGet, dictKeys]
  | cons x rest ih =>
    rcases x with ⟨k2, c⟩
    by_cases h : k2 = k
    · subst h
      simp [dictGet, dictKeys]
    · simp only [dictGet, if_neg h, dictKeys, List.map_cons, List.mem_cons, ih]
      constructor
      · rintro hk (rfl | hmem)
        · exact h rfl
        · exact hk hmem
      · intro hk hmem
        exact hk (Or.inr hmem)

theorem dictGet_eq_none_of_forall_lt [LinearOrder K] (k : K) (l : List (K × β))
    (h : ∀ e ∈ l, k < e.1) : dictGet k l = none := by
  rw [dictGet_eq_none_iff]
  intro hmem
  obtain ⟨e, he, hfst⟩ := List.mem_map.mp hmem
  exact absurd (hfst ▸ h e he) (lt_irrefl k)

theorem dictInsert_cons_self (k : K) (c c2 : β) (rest : List (K × β)) :
    dictInsert k c ((k, c2) :: rest) = (k, c) :: rest := by
  simp [dictInsert]

theorem dictInsert_cons_ne (k k2 : K) (c c2 : β) (rest : List (K × β)) (h : k2 ≠ k) :
    dictInsert k c ((k2, c2) :: rest) = (k2, c2) :: dictInsert k c rest := by
  simp [dictInsert, h]

theorem mem_dictKeys_dictInsert (k : K) (c : β) (l : List (K × β)) (a : K) :
    a ∈ dictKeys (dictInsert k c l) ↔ a = k ∨ a ∈ dictKeys l := by
  induction l with
  | nil => simp [dictInsert, dictKeys]
  | cons x rest ih =>
    rcases x with ⟨k2, c2⟩
    by_cases h : k2 = k
    · subst h
      rw [dictInsert_cons_self]
      simp only [dictKeys, List.map_cons, List.mem_cons]
      tauto
    · rw [dictInsert_cons_ne _ _ _ _ _ h]
      simp only [dictKeys, List.map_cons, List.mem_cons]
      rw [show (dictInsert k c rest).map Prod.fst = dictKeys (dictInsert k c rest) from rfl, ih]
      tauto

theorem nodup_dictKeys_dictInsert (k : K) (c : β) (l : List (K × β))
    (h : (dictKeys l).Nodup) : (dictKeys (dictInsert k c l)).Nodup := by
  induction l with
  | nil => simp [dictInsert, dictKeys]
  | cons x rest ih =>
    rcases x with ⟨k2, c2⟩
    simp only [dictKeys, List.map_cons, List.nodup_cons] at h
    by_cases hk : k2 = k
    · subst hk
      rw [dictInsert_cons_self]
      simpa [dictKeys, List.nodup_cons] using h
    · rw [dictInsert_cons_ne _ _ _ _ _ hk]
      simp only [dictKeys, List.map_cons, List.nodup_cons]
      refine ⟨?_, ih h.2⟩
      rw [show (dictInsert k c rest).map Prod.fst = dictKeys (dictInsert k c rest) from rfl,
        mem_dictKeys_dictInsert]
      rintro (rfl | hmem)
      · exact hk rfl
      · exact h.1 hmem

theorem nodup_dictKeys_combineStep {V B : Type} (cc : V → Option B)
    (mv : Option B → V → Option B) (bucket : List (K × Option B)) (k : K) (v : V)
    (h : (dictKeys bucket).Nodup) :
    (dictKeys (combineStep cc mv bucket k v)).Nodup := by
  rw [combineStep]
  by_cases hs : ((dictGet k bucket).getD none).isSome
  · simp only [if_pos hs]
    exact nodup_dictKeys_dictInsert _ _ _ h
  · simp only [if_neg hs]
    exact nodup_dictKeys_dictInsert _ _ _ h

theorem dictGet_eq_some_iff_mem (k : K) (c : β) (l : List (K × β))
    (h : (dictKeys l).Nodup) : dictGet k l = some c ↔ (k, c) ∈ l := by
  induction l with
  | nil => simp [dictGet]
  | cons x rest ih =>
    rcases x with ⟨k2, c2⟩
    simp only [dictKeys, List.map_cons, List.nodup_cons] at h
    have hget : dictGet k ((k2, c2) :: rest) =
        if k2 = k then some c2 else dictGet k rest := rfl
    by_cases hk : k2 = k
    · subst hk
      rw [hget, if_pos rfl]
      simp only [Option.some.injEq, List.mem_cons, Prod.mk.injEq]
      constructor
      · rintro rfl
        exact Or.inl ⟨trivial, rfl⟩
      · rintro (⟨-, rfl⟩ | hmem)
        · rfl
        · exact absurd (List.mem_map.mpr ⟨(k2, c), hmem, rfl⟩) h.1
    · rw [hget, if_neg hk]
      simp only [List.mem_cons, Prod.mk.injEq, ih h.2]
      constructor
      · exact Or.inr
      · rintro (⟨rfl, -⟩ | hmem)
        · exact absurd rfl hk
        · exact hmem

theorem dictGet_eq_of_perm (k : K) (l1 l2 : List (K × β)) (hp : l1.Perm l2)
    (h1 : (dictKeys l1).Nodup) : dictGet k l1 = dictGet k l2 := by
  have h2 : (dictKeys l2).Nodup := ((hp.map Prod.fst).nodup_iff).mp h1
  rcases hg : dictGet k l1 with _ | c
  · rw [dictGet_eq_none_iff] at hg
    rw [eq_comm, dictGet_eq_none_iff]
    intro hmem
    exact hg (((hp.map Prod.fst).mem_iff).mpr hmem)
  · rw [dictGet_eq_some_iff_mem _ _ _ h1] at hg
    rw [eq_comm, dictGet_eq_some_iff_mem _ _ _ h2]
    exact hp.mem_iff.mp hg

theorem nodup_dictKeys_combineAll {V B : Type} (gp : K → Nat) (cc : V → Option B)
    (mv : Option B → V → Option B) :
    ∀ (l : List (K × V)) (bs : List (List (K × Option B))),
      (∀ j, (dictKeys (bs.getD j [])).Nodup) →
      ∀ j, (dictKeys ((combineAll gp cc mv l bs).getD j [])).Nodup := by
  intro l
  induction l with
  | nil =>
    intro bs h j
    exact h j
  | cons kv rest ih =>
    intro bs h j
    rw [combineAll, List.foldl_cons]
    refine ih _ ?_ j
    intro j2
    rw [bucketsStep, getD_set]
    by_cases hcond : gp kv.1 = j2 ∧ gp kv.1 < bs.length
    · rw [if_pos hcond]
      exact nodup_dictKeys_combineStep _ _ _ _ _ (h _)
    · rw [if_neg hcond]
      exact h j2

end DictKeyLemmas

/-! ## Sorting -/

section SortLemmas

variable {K B : Type} [LinearOrder K]

theorem insertByKey_perm (x : K × Option B) (l : List (K × Option B)) :
    (insertByKey x l).Perm (x :: l) := by
  induction l with
  | nil => rfl
  | cons y ys ih =>
    rw [insertByKey]
    by_cases h : x.1 ≤ y.1
    · rw [if_pos h]
    · rw [if_neg h]
      exact (ih.cons y).trans (List.Perm.swap x y ys)

theorem sortByKey_perm (l : List (K × Option B)) : (sortByKey l).Perm l := by
  induction l with
  | nil => rfl
  | cons x xs ih =>
    rw [sortByKey, List.foldr_cons]
    exact (insertByKey_perm x _).trans (ih.cons x)

theorem insertByKey_sorted (x : K × Option B) (l : List (K × Option B))
    (h : l.Pairwise (fun a b => a.1 ≤ b.1)) :
    (insertByKey x l).Pairwise (fun a b => a.1 ≤ b.1) := by
  induction l with
  | nil => simp [insertByKey]
  | cons y ys ih =>
    rw [List.pairwise_cons] at h
    rw [insertByKey]
    by_cases hle : x.1 ≤ y.1
    · rw [if_pos hle]
      rw [List.pairwise_cons]
      refine ⟨?_, List.pairwise_cons.mpr h⟩
      intro e he
      rcases List.mem_cons.mp he with rfl | hmem
      · exact hle
      · exact le_trans hle (h.1 e hmem)
    · rw [if_neg hle]
      rw [List.pairwise_cons]
      refine ⟨?_, ih h.2⟩
      intro e he
      rcases List.mem_cons.mp ((insertByKey_perm x ys).mem_iff.mp he) with rfl | hmem
      · exact le_of_lt (lt_of_not_le hle)
      · exact h.1 e hmem

theorem sortByKey_sorted (l : List (K × Option B)) :
    (sortByKey l).Pairwise (fun a b => a.1 ≤ b.1) := by
  induction l with
  | nil => simp [sortByKey]
  | cons x xs ih =>
    rw [sortByKey, List.foldr_cons]
    exact insertByKey_sorted x _ ih

theorem sortByKey_strict (l : List (K × Option B)) (h : (dictKeys l).Nodup) :
    (sortByKey l).Pairwise (fun a b => a.1 < b.1) := by
  have hperm : ((sortByKey l).map Prod.fst).Perm (l.map Prod.fst) :=
    (sortByKey_perm l).map Prod.fst
  have hnd : ((sortByKey l).map Prod.fst).Nodup := hperm.nodup_iff.mpr h
  have hne : (sortByKey l).Pairwise (fun a b => a.1 ≠ b.1) := List.pairwise_map.mp hnd
  have hle := sortByKey_sorted l
  exact (hle.and hne).imp (fun hab => lt_of_le_of_ne hab.1 hab.2)

theorem sortByKey_dictGet (l : List (K × Option B)) (k : K)
    (h : (dictKeys l).Nodup) : dictGet k (sortByKey l) = dictGet k l := by
  refine dictGet_eq_of_perm k _ _ (sortByKey_perm l) ?_
  exact (((sortByKey_perm l).map Prod.fst).nodup_iff).mpr h

end SortLemmas

/-! ## Sorted-merge correctness -/

section MergedLemmas

variable {K B : Type} [LinearOrder K]

theorem merge2_mem_keys (mc : Option B → Option B → Option B) :
    ∀ (l1 l2 : List (K × Option B)) (e : K × Option B),
      e ∈ merge2 mc l1 l2 → e.1 ∈ dictKeys l1 ∨ e.1 ∈ dictKeys l2 := by
  intro l1
  induction l1 with
  | nil =>
    intro l2 e he
    rw [merge2_nil_left] at he
    exact Or.inr (List.mem_map.mpr ⟨e, he, rfl⟩)
  | cons x t1 ih1 =>
    intro l2
    induction l2 with
    | nil =>
      intro e he
      rw [merge2_nil_right] at he
      exact Or.inl (List.mem_map.mpr ⟨e, he, rfl⟩)
    | cons y t2 ih2 =>
      intro e he
      rcases x with ⟨k1, c1⟩
      rcases y with ⟨k2, c2⟩
      rw [merge2_cons_cons] at he
      by_cases h12 : k1 < k2
      · rw [if_pos h12] at he
        rcases List.mem_cons.mp he with rfl | hmem
        · exact Or.inl (by simp [dictKeys])
        · rcases ih1 _ _ hmem with h | h
          · refine Or.inl ?_
            simp only [dictKeys, List.map_cons, List.mem_cons]
            exact Or.inr h
          · exact Or.inr h
      · by_cases h21 : k2 < k1
        · rw [if_neg h12, if_pos h21] at he
          rcases List.mem_cons.mp he with rfl | hmem
          · exact Or.inr (by simp [dictKeys])
          · rcases ih2 _ hmem with h | h
            · exact Or.inl h
            · refine Or.inr ?_
              simp only [dictKeys, List.map_cons, List.mem_cons]
              exact Or.inr h
        · rw [if_neg h12, if_neg h21] at he
          rcases List.mem_cons.mp he with rfl | hmem
          · exact Or.inl (by simp [dictKeys])
          · rcases ih1 _ _ hmem with h | h
            · refine Or.inl ?_
              simp only [dictKeys, List.map_cons, List.mem_cons]
              exact Or.inr h
            · refine Or.inr ?_
              simp only [dictKeys, List.map_cons, List.mem_cons]
              exact Or.inr h

theorem lt_of_mem_keys {k : K} {l : List (K × Option B)} {a : K}
    (_sorted : l.Pairwise (fun a b => a.1 < b.1))
    (hhead : ∀ e ∈ l, k < e.1) (hmem : a ∈ dictKeys l) : k < a := by
  obtain ⟨e, he, rfl⟩ := List.mem_map.mp hmem
  exact hhead e he

theorem merge2_sorted (mc : Option B → Option B → Option B) :
    ∀ (l1 l2 : List (K × Option B)),
      l1.Pairwise (fun a b => a.1 < b.1) → l2.Pairwise (fun a b => a.1 < b.1) →
      (merge2 mc l1 l2).Pairwise (fun a b => a.1 < b.1) := by
  intro l1
  induction l1 with
  | nil =>
    intro l2 h1 h2
    rw [merge2_nil_left]
    exact h2
  | cons x t1 ih1 =>
    intro l2
    induction l2 with
    | nil =>
      intro h1 h2
      rw [merge2_nil_right]
      exact h1
    | cons y t2 ih2 =>
      intro h1 h2
      rcases x with ⟨k1, c1⟩
      rcases y with ⟨k2, c2⟩
      rw [List.pairwise_cons] at h1 h2
      rw [merge2_cons_cons]
      by_cases h12 : k1 < k2
      · rw [if_pos h12]
        rw [List.pairwise_cons]
        refine ⟨?_, ih1 _ h1.2 (List.pairwise_cons.mpr h2)⟩
        intro e he
        rcases merge2_mem_keys mc _ _ _ he with h | h
        · exact lt_of_mem_keys h1.2 h1.1 h
        · simp only [dictKeys, List.map_cons, List.mem_cons] at h
          rcases h with rfl | h
          · exact h12
          · obtain ⟨f, hf, hfe⟩ := List.mem_map.mp h
            rw [← hfe]
            exact lt_trans h12 (h2.1 f hf)
      · by_cases h21 : k2 < k1
        · rw [if_neg h12, if_pos h21]
          rw [List.pairwise_cons]
          refine ⟨?_, ih2 (List.pairwise_cons.mpr h1) h2.2⟩
          intro e he
          rcases merge2_mem_keys mc _ _ _ he with h | h
          · simp only [dictKeys, List.map_cons, List.mem_cons] at h
            rcases h with rfl | h
            · exact h21
            · obtain ⟨f, hf, hfe⟩ := List.mem_map.mp h
              rw [← hfe]
              exact lt_trans h21 (h1.1 f hf)
          · exact lt_of_mem_keys h2.2 h2.1 h
        · have hkk : k1 = k2 := le_antisymm (le_of_not_lt h21) (le_of_not_lt h12)
          subst hkk
          rw [if_neg h12, if_neg h21]
          rw [List.pairwise_cons]
          refine ⟨?_, ih1 _ h1.2 h2.2⟩
          intro e he
          rcases merge2_mem_keys mc _ _ _ he with h | h
          · exact lt_of_mem_keys h1.2 h1.1 h
          · exact lt_of_mem_keys h2.2 h2.1 h

theorem merge2_dictGet (mc : Option B → Option B → Option B) :
    ∀ (l1 l2 : List (K × Option B)),
      l1.Pairwise (fun a b => a.1 < b.1) → l2.Pairwise (fun a b => a.1 < b.1) →
      ∀ k : K, dictGet k (merge2 mc l1 l2) =
        optCombine mc (dictGet k l1) (dictGet k l2) := by
  intro l1
  induction l1 with
  | nil =>
    intro l2 h1 h2 k
    rw [merge2_nil_left]
    rfl
  | cons x t1 ih1 =>
    intro l2
    induction l2 with
    | nil =>
      intro h1 h2 k
      rw [merge2_nil_right]
      rcases hg : dictGet k (x :: t1) with _ | c <;> rfl
    | cons y t2 ih2 =>
      intro h1 h2 k
      rcases x with ⟨k1, c1⟩
      rcases y with ⟨k2, c2⟩
      rw [List.pairwise_cons] at h1 h2
      have hget1 : dictGet k ((k1, c1) :: t1) =
          if k1 = k then some c1 else dictGet k t1 := rfl
      have hget2 : dictGet k ((k2, c2) :: t2) =
          if k2 = k then some c2 else dictGet k t2 := rfl
      rw [merge2_cons_cons]
      by_cases h12 : k1 < k2
      · rw [if_pos h12]
        have hstep : dictGet k ((k1, c1) :: merge2 mc t1 ((k2, c2) :: t2)) =
            if k1 = k then some c1 else dictGet k (merge2 mc t1 ((k2, c2) :: t2)) := rfl
        rw [hstep]
        by_cases hk : k1 = k
        · subst hk
          have hnone : dictGet k1 ((k2, c2) :: t2) = none := by
            refine dictGet_eq_none_of_forall_lt _ _ ?_
            intro e he
            rcases List.mem_cons.mp he with rfl | hmem
            · exact h12
            · exact lt_trans h12 (h2.1 e hmem)
          rw [if_pos rfl, hget1, if_pos rfl, hnone]
          rfl
        · rw [if_neg hk, hget1, if_neg hk]
          exact ih1 _ h1.2 (List.pairwise_cons.mpr h2) k
      · by_cases h21 : k2 < k1
        · rw [if_neg h12, if_pos h21]
          have hstep : dictGet k ((k2, c2) :: merge2 mc ((k1, c1) :: t1) t2) =
              if k2 = k then some c2 else
                dictGet k (merge2 mc ((k1, c1) :: t1) t2) := rfl
          rw [hstep]
          by_cases hk : k2 = k
          · subst hk
            have hnone : dictGet k2 ((k1, c1) :: t1) = none := by
              refine dictGet_eq_none_of_forall_lt _ _ ?_
              intro e he
              rcases List.mem_cons.mp he with rfl | hmem
              · exact h21
              · exact lt_trans h21 (h1.1 e hmem)
            rw [if_pos rfl, hget2, if_pos rfl, hnone]
            rfl
          · rw [if_neg hk, hget2, if_neg hk]
            rw [ih2 (List.pairwise_cons.mpr h1) h2.2 k, hget1]
        · have hkk : k1 = k2 := le_antisymm (le_of_not_lt h21) (le_of_not_lt h12)
          subst hkk
          rw [if_neg h12, if_neg h21]
          have hstep : dictGet k ((k1, mc c1 c2) :: merge2 mc t1 t2) =
              if k1 = k then some (mc c1 c2) else dictGet k (merge2 mc t1 t2) := rfl
          rw [hstep]
          by_cases hk : k1 = k
          · rw [if_pos hk, hget1, if_pos hk, hget2, if_pos hk]
            rfl
          · rw [if_neg hk, hget1, if_neg hk, hget2, if_neg hk]
            exact ih1 _ h1.2 h2.2 k

theorem mergeStreams_sorted_dictGet (mc : Option B → Option B → Option B) :
    ∀ (streams : List (List (K × Option B))) (acc : List (K × Option B)),
      acc.Pairwise (fun a b => a.1 < b.1) →
      (∀ s ∈ streams, s.Pairwise (fun a b => a.1 < b.1)) →
      (streams.foldl (fun acc s => merge2 mc acc s) acc).Pairwise
        (fun a b => a.1 < b.1) ∧
      ∀ k : K, dictGet k (streams.foldl (fun acc s => merge2 mc acc s) acc) =
        (streams.map (fun s => dictGet k s)).foldl (optCombine mc) (dictGet k acc) := by
  intro streams
  induction streams with
  | nil =>
    intro acc hacc hs
    exact ⟨hacc, fun k => rfl⟩
  | cons s rest ih =>
    intro acc hacc hs
    have hs0 : s.Pairwise (fun a b => a.1 < b.1) := hs s (List.mem_cons_self _ _)
    have hms := merge2_sorted mc acc s hacc hs0
    obtain ⟨ihs, ihg⟩ := ih (merge2 mc acc s) hms
      (fun t ht => hs t (List.mem_cons_of_mem _ ht))
    rw [List.foldl_cons]
    refine ⟨ihs, ?_⟩
    intro k
    rw [List.map_cons, List.foldl_cons, ihg k, merge2_dictGet mc acc s hacc hs0 k]

theorem smPublished_eq_mergeStreams (mc : Option B → Option B → Option B)
    (files : List (List (K × Option B))) :
    smPublished mc files = mergeStreams mc files := by
  rcases files with _ | ⟨f1, rest⟩
  · rfl
  rcases rest with _ | ⟨f2, rest2⟩
  · show (([f1] : List (List (K × Option B))).getLast?).getD [] = _
    rw [mergeStreams, List.foldl_cons, List.foldl_nil]
    rw [merge2_nil_left]
    rfl
  · show ((smPreCommitFiles mc (f1 :: f2 :: rest2)).getLast?).getD [] = _
    rw [show smPreCommitFiles mc (f1 :: f2 :: rest2) =
      (f1 :: f2 :: rest2) ++ [mergeStreams mc (f1 :: f2 :: rest2)] from rfl]
    rw [List.getLast?_concat]
    rfl

theorem sorted_dict_ext :
    ∀ (l1 l2 : List (K × Option B)),
      l1.Pairwise (fun a b => a.1 < b.1) → l2.Pairwise (fun a b => a.1 < b.1) →
      (∀ k : K, dictGet k l1 = dictGet k l2) → l1 = l2 := by
  intro l1
  induction l1 with
  | nil =>
    intro l2 h1 h2 hg
    cases l2 with
    | nil => rfl
    | cons y t2 =>
      rcases y with ⟨k2, c2⟩
      have hy := hg k2
      rw [show dictGet k2 ([] : List (K × Option B)) = none from rfl] at hy
      rw [show dictGet k2 ((k2, c2) :: t2) = some c2 by simp [dictGet]] at hy
      cases hy
  | cons x t1 ih =>
    intro l2 h1 h2 hg
    rcases x with ⟨k1, c1⟩
    cases l2 with
    | nil =>
      have hx := hg k1
      rw [show dictGet k1 ((k1, c1) :: t1) = some c1 by simp [dictGet]] at hx
      rw [show dictGet k1 ([] : List (K × Option B)) = none from rfl] at hx
      cases hx
    | cons y t2 =>
      rcases y with ⟨k2, c2⟩
      rw [List.pairwise_cons] at h1 h2
      by_cases hk : k2 = k1
      · subst hk
        have hc := hg k2
        rw [show dictGet k2 ((k2, c1) :: t1) = some c1 by simp [dictGet]] at hc
        rw [show dictGet k2 ((k2, c2) :: t2) = some c2 by simp [dictGet]] at hc
        cases hc
        refine congrArg _ (ih t2 h1.2 h2.2 ?_)
        intro k
        by_cases hkk : k2 = k
        · subst hkk
          rw [dictGet_eq_none_of_forall_lt _ _ h1.1, dictGet_eq_none_of_forall_lt _ _ h2.1]
        · have := hg k
          rw [show dictGet k ((k2, c1) :: t1) = if k2 = k then some c1 else dictGet k t1
            from rfl, if_neg hkk] at this
          rw [show dictGet k ((k2, c1) :: t2) = if k2 = k then some c1 else dictGet k t2
            from rfl, if_neg hkk] at this
          exact this
      · exfalso
        have ha := hg k1
        rw [show dictGet k1 ((k1, c1) :: t1) = some c1 by simp [dictGet]] at ha
        rw [show dictGet k1 ((k2, c2) :: t2) = if k2 = k1 then some c2 else dictGet k1 t2
          from rfl, if_neg hk] at ha
        have hmem1 : k1 ∈ dictKeys t2 := by
          by_contra hno
          rw [← dictGet_eq_none_iff k1 t2] at hno
          rw [hno] at ha
          cases ha
        have h21 : k2 < k1 := lt_of_mem_keys h2.2 h2.1 hmem1
        have hb := hg k2
        rw [show dictGet k2 ((k2, c2) :: t2) = some c2 by simp [dictGet]] at hb
        rw [show dictGet k2 ((k1, c1) :: t1) = if k1 = k2 then some c1 else dictGet k2 t1
          from rfl, if_neg (fun h => hk h.symm)] at hb
        have hmem2 : k2 ∈ dictKeys t1 := by
          by_contra hno
          rw [← dictGet_eq_none_iff k2 t1] at hno
          rw [hno] at hb
          cases hb
        have h12 : k1 < k2 := lt_of_mem_keys h1.2 h1.1 hmem2
        exact absurd h12 (lt_asymm h21)

end MergedLemmas

/-! ## Per-key view of the combine loop -/

section LoopLookup

variable {K V B : Type} [DecidableEq K]

theorem combineStep_dictGet (cc : V → Option B) (mv : Option B → V → Option B)
    (bucket : List (K × Option B)) (k1 : K) (v : V) (k : K) :
    dictGet k (combineStep cc mv bucket k1 v) =
      if k1 = k then oneKeyStep cc mv (dictGet k bucket) v else dictGet k bucket := by
  by_cases hk : k1 = k
  · subst hk
    rw [if_pos rfl]
    simp only [combineStep, oneKeyStep]
    by_cases hs : ((dictGet k1 bucket).getD none).isSome = true
    · rw [if_pos hs, if_pos hs, dictGet_dictInsert_self]
    · rw [if_neg hs, if_neg hs, dictGet_dictInsert_self]
  · rw [if_neg hk]
    simp only [combineStep]
    by_cases hs : ((dictGet k1 bucket).getD none).isSome = true
    · rw [if_pos hs]
      exact dictGet_dictInsert_ne _ _ _ _ hk
    · rw [if_neg hs]
      exact dictGet_dictInsert_ne _ _ _ _ hk

theorem bucketsStep_dictGet (gp : K → Nat) (cc : V → Option B)
    (mv : Option B → V → Option B) (bs : List (List (K × Option B)))
    (k1 : K) (v : V) (j : Nat) (hj : j < bs.length) (k : K) :
    dictGet k ((bucketsStep gp cc mv bs k1 v).getD j []) =
      if k1 = k ∧ gp k1 = j then oneKeyStep cc mv (dictGet k (bs.getD j [])) v
      else dictGet k (bs.getD j []) := by
  by_cases hgp : gp k1 = j
  · subst hgp
    rw [bucketsStep, getD_set, if_pos ⟨rfl, hj⟩, combineStep_dictGet]
    by_cases hk : k1 = k
    · rw [if_pos hk, if_pos ⟨hk, rfl⟩]
    · rw [if_neg hk, if_neg (fun h => hk h.1)]
  · rw [bucketsStep, getD_set, if_neg (fun h => hgp h.1), if_neg (fun h => hgp h.2)]

theorem length_bucketsStep (gp : K → Nat) (cc : V → Option B)
    (mv : Option B → V → Option B) (bs : List (List (K × Option B))) (k1 : K) (v : V) :
    (bucketsStep gp cc mv bs k1 v).length = bs.length := by
  rw [bucketsStep]
  exact List.length_set bs _ _

theorem valsFor_cons (k k1 : K) (v1 : V) (l : List (K × V)) :
    valsFor k ((k1, v1) :: l) =
      if k1 = k then v1 :: valsFor k l else valsFor k l := by
  simp only [valsFor, List.filterMap_cons]
  by_cases h : k1 = k
  · simp [h]
  · simp [h]

theorem combineAll_dictGet (gp : K → Nat) (cc : V → Option B)
    (mv : Option B → V → Option B) :
    ∀ (l : List (K × V)) (bs : List (List (K × Option B))) (j : Nat), j < bs.length →
      ∀ k : K, dictGet k ((combineAll gp cc mv l bs).getD j []) =
        if gp k = j then oneKeyFold cc mv (dictGet k (bs.getD j [])) (valsFor k l)
        else dictGet k (bs.getD j []) := by
  intro l
  induction l with
  | nil =>
    intro bs j hj k
    rw [combineAll, List.foldl_nil, valsFor, List.filterMap_nil, oneKeyFold, List.foldl_nil]
    by_cases h : gp k = j
    · rw [if_pos h]
    · rw [if_neg h]
  | cons kv rest ih =>
    intro bs j hj k
    rcases kv with ⟨k1, v1⟩
    rw [combineAll, List.foldl_cons]
    rw [show List.foldl
        (fun bs kv => bucketsStep gp cc mv bs kv.1 kv.2)
        (bucketsStep gp cc mv bs k1 v1) rest =
      combineAll gp cc mv rest (bucketsStep gp cc mv bs k1 v1) from rfl]
    rw [ih (bucketsStep gp cc mv bs k1 v1) j
      (by rw [length_bucketsStep]; exact hj) k]
    rw [bucketsStep_dictGet gp cc mv bs k1 v1 j hj k]
    rw [valsFor_cons]
    by_cases hk : k1 = k
    · subst hk
      rw [if_pos rfl]
      by_cases hgp : gp k1 = j
      · rw [if_pos hgp, if_pos hgp, if_pos ⟨rfl, hgp⟩]
        rfl
      · rw [if_neg hgp, if_neg hgp, if_neg (fun h => hgp h.2)]
    · rw [if_neg hk]
      by_cases hgp : gp k = j
      · rw [if_pos hgp, if_pos hgp, if_neg (fun h => hk h.1)]
      · rw [if_neg hgp, if_neg hgp, if_neg (fun h => hk h.1)]

theorem valsFor_append (k : K) (l1 l2 : List (K × V)) :
    valsFor k (l1 ++ l2) = valsFor k l1 ++ valsFor k l2 := by
  simp [valsFor, List.filterMap_append]

theorem valsFor_flatten (k : K) :
    ∀ ll : List (List (K × V)),
      valsFor k ll.flatten = (ll.map (valsFor k)).flatten := by
  intro ll
  induction ll with
  | nil => rfl
  | cons l rest ih =>
    rw [List.flatten_cons, valsFor_append, ih, List.map_cons, List.flatten_cons]

end LoopLookup

/-! ## Aggregation algebra -/

section Algebra

variable {V B : Type}

theorem oneKeyFold_some (cc : V → Option B) (mv : Option B → V → Option B)
    (hmv : ∀ (c : Option B) (v : V), (mv c v).isSome = true) :
    ∀ (vs : List V) (u : Option B), u.isSome = true →
      oneKeyFold cc mv (some u) vs = some (vs.foldl mv u) := by
  intro vs
  induction vs with
  | nil =>
    intro u hu
    rfl
  | cons v rest ih =>
    intro u hu
    rw [oneKeyFold, List.foldl_cons]
    have hstep : oneKeyStep cc mv (some u) v = some (mv u v) := by
      simp [oneKeyStep, hu]
    rw [hstep]
    rw [show List.foldl (oneKeyStep cc mv) (some (mv u v)) rest =
      oneKeyFold cc mv (some (mv u v)) rest from rfl]
    rw [ih (mv u v) (hmv u v)]
    rfl

theorem oneKeyFold_eq_ccFold (cc : V → Option B) (mv : Option B → V → Option B)
    (hcc : ∀ v : V, (cc v).isSome = true)
    (hmv : ∀ (c : Option B) (v : V), (mv c v).isSome = true) (vs : List V) :
    oneKeyFold cc mv none vs = ccFold cc mv vs := by
  cases vs with
  | nil => rfl
  | cons v rest =>
    rw [oneKeyFold, List.foldl_cons]
    have hstep : oneKeyStep cc mv none v = some (cc v) := rfl
    rw [hstep]
    rw [show List.foldl (oneKeyStep cc mv) (some (cc v)) rest =
      oneKeyFold cc mv (some (cc v)) rest from rfl]
    rw [oneKeyFold_some cc mv hmv rest (cc v) (hcc v)]
    rfl

theorem foldl_mv_mc (mv : Option B → V → Option B)
    (cc : V → Option B) (mc : Option B → Option B → Option B)
    (hassoc : ∀ a b c : Option B, mc (mc a b) c = mc a (mc b c))
    (hcompat : ∀ (c : Option B) (v : V), mv c v = mc c (cc v)) :
    ∀ (ws : List V) (C D : Option B), ws.foldl mv (mc C D) = mc C (ws.foldl mv D) := by
  intro ws
  induction ws with
  | nil =>
    intro C D
    rfl
  | cons w ws ih =>
    intro C D
    rw [List.foldl_cons, List.foldl_cons, hcompat (mc C D) w, hassoc, ← hcompat D w]
    exact ih C (mv D w)

theorem ccFold_append (cc : V → Option B) (mv : Option B → V → Option B)
    (mc : Option B → Option B → Option B)
    (hassoc : ∀ a b c : Option B, mc (mc a b) c = mc a (mc b c))
    (hcompat : ∀ (c : Option B) (v : V), mv c v = mc c (cc v))
    (vs1 vs2 : List V) :
    ccFold cc mv (vs1 ++ vs2) = optCombine mc (ccFold cc mv vs1) (ccFold cc mv vs2) := by
  cases vs1 with
  | nil => rfl
  | cons v rest =>
    cases vs2 with
    | nil =>
      rw [List.append_nil]
      rfl
    | cons w ws =>
      show ccFold cc mv (v :: (rest ++ w :: ws)) = _
      rw [show ccFold cc mv (v :: (rest ++ w :: ws)) =
        some ((rest ++ w :: ws).foldl mv (cc v)) from rfl]
      rw [List.foldl_append, List.foldl_cons, hcompat,
        foldl_mv_mc mv cc mc hassoc hcompat ws _ (cc w)]
      rfl

theorem foldl_optCombine_map_ccFold (cc : V → Option B) (mv : Option B → V → Option B)
    (mc : Option B → Option B → Option B)
    (hassoc : ∀ a b c : Option B, mc (mc a b) c = mc a (mc b c))
    (hcompat : ∀ (c : Option B) (v : V), mv c v = mc c (cc v)) :
    ∀ (vss : List (List V)) (vs0 : List V),
      (vss.map (ccFold cc mv)).foldl (optCombine mc) (ccFold cc mv vs0) =
        ccFold cc mv (vs0 ++ vss.flatten) := by
  intro vss
  induction vss with
  | nil =>
    intro vs0
    rw [List.map_nil, List.foldl_nil, List.flatten_nil, List.append_nil]
  | cons vs rest ih =>
    intro vs0
    rw [List.map_cons, List.foldl_cons,
      ← ccFold_append cc mv mc hassoc hcompat vs0 vs, ih (vs0 ++ vs), List.flatten_cons,
      List.append_assoc]

theorem optCombine_none_right {B : Type} (mc : Option B → Option B → Option B)
    (x : Option (Option B)) : optCombine mc x none = x := by
  cases x <;> rfl

end Algebra

/-! ## Pipeline characterization -/

theorem getD_replicate_nil {α : Type} (n j : Nat) :
    (List.replicate n ([] : List α)).getD j [] = [] := by
  rcases Nat.lt_or_ge j n with h | h
  · exact getD_replicate n j [] [] h
  · rw [List.getD_eq_getElem?_getD, List.getElem?_eq_none]
    · rfl
    · simpa using h

theorem segmentsOf_flatten {A : Type} (rotate : Nat → Bool) :
    ∀ (i : Nat) (l : List A), (segmentsOf rotate i l).flatten = l := by
  intro i l
  induction l generalizing i with
  | nil => rfl
  | cons x xs ih =>
    rw [segmentsOf]
    by_cases hr : rotate i
    · rw [if_pos hr, List.flatten_cons, ih (i + 1)]
      rfl
    · rw [if_neg hr]
      rcases hs : segmentsOf rotate (i + 1) xs with _ | ⟨s, ss⟩
      · have hxs := ih (i + 1)
        rw [hs] at hxs
        rw [show (List.flatten ([] : List (List A))) = [] from rfl] at hxs
        rw [← hxs]
        rfl
      · have hxs := ih (i + 1)
        rw [hs, List.flatten_cons] at hxs
        rw [List.flatten_cons, ← hxs]
        rfl

theorem segmentsOf_false {A : Type} :
    ∀ (i : Nat) (l : List A), segmentsOf (fun _ => false) i l = [l] := by
  intro i l
  induction l generalizing i with
  | nil => rfl
  | cons x xs ih =>
    rw [segmentsOf, if_neg (by simp), ih (i + 1)]

section PipelineLemmas

variable {K V B : Type} [LinearOrder K]

theorem smFilesAfterDump_eq (files : List (List (K × Option B)))
    (bucket : List (K × Option B)) :
    smFilesAfterDump files bucket =
      files ++ if bucket.isEmpty then [] else [sortByKey bucket] := by
  cases bucket with
  | nil =>
    rw [show (([] : List (K × Option B)).isEmpty) = true from rfl, if_pos rfl,
      List.append_nil]
    rfl
  | cons x bs => rfl

theorem smDumps_tmp_files (j : Nat) :
    ∀ (bucketLists : List (List (List (K × Option B)))) (st : SortMergeDumperState K B),
      j < st.num_reduce →
      ((bucketLists.foldl (fun st bs => smDump st bs false) st).num_reduce =
          st.num_reduce ∧
       (bucketLists.foldl (fun st bs => smDump st bs false) st).tmp_files.getD j [] =
         st.tmp_files.getD j [] ++
           ((bucketLists.map (fun bs => bs.getD j [])).filter
             (fun b => !b.isEmpty)).map sortByKey) := by
  intro bucketLists
  induction bucketLists with
  | nil =>
    intro st hj
    simp
  | cons bs rest ih =>
    intro st hj
    have hn : (smDump st bs false).num_reduce = st.num_reduce := rfl
    have hstep : (smDump st bs false).tmp_files.getD j [] =
        smFilesAfterDump (st.tmp_files.getD j []) (bs.getD j []) := by
      simp only [smDump]
      exact getD_map_range _ _ _ _ hj
    obtain ⟨h1, h2⟩ := ih (smDump st bs false) (by rw [hn]; exact hj)
    rw [List.foldl_cons]
    refine ⟨by rw [h1, hn], ?_⟩
    rw [h2, hstep, smFilesAfterDump_eq, List.map_cons, List.filter_cons]
    cases hbe : (bs.getD j []).isEmpty with
    | true => simp [hbe]
    | false => simp [hbe, List.append_assoc]

theorem map_dictGet_sortByKey (k : K) (bucketsList : List (List (K × Option B)))
    (hnd : ∀ b ∈ bucketsList, (dictKeys b).Nodup) :
    (bucketsList.map sortByKey).map (fun s => dictGet k s) =
      bucketsList.map (fun b => dictGet k b) := by
  induction bucketsList with
  | nil => rfl
  | cons b rest ih =>
    rw [List.map_cons, List.map_cons, List.map_cons]
    rw [sortByKey_dictGet b k (hnd b (List.mem_cons_self _ _))]
    rw [ih (fun x hx => hnd x (List.mem_cons_of_mem _ hx))]

theorem foldl_optCombine_filter (mc : Option B → Option B → Option B) (k : K) :
    ∀ (buckets : List (List (K × Option B))) (x : Option (Option B)),
      ((buckets.filter (fun b => !b.isEmpty)).map (fun b => dictGet k b)).foldl
        (optCombine mc) x =
      (buckets.map (fun b => dictGet k b)).foldl (optCombine mc) x := by
  intro buckets
  induction buckets with
  | nil =>
    intro x
    rfl
  | cons b rest ih =>
    intro x
    rw [List.filter_cons, List.map_cons, List.foldl_cons]
    cases hbe : b.isEmpty with
    | true =>
      have hb : b = [] := List.isEmpty_iff.mp hbe
      subst hb
      rw [show dictGet k ([] : List (K × Option B)) = none from rfl,
        optCombine_none_right]
      simpa [hbe] using ih x
    | false =>
      simp only [hbe, Bool.not_false, if_pos]
      rw [List.map_cons, List.foldl_cons]
      exact ih _

theorem foldl_optCombine_all_none (mc : Option B → Option B → Option B) :
    ∀ (l : List (Option (Option B))), (∀ x ∈ l, x = none) →
      l.foldl (optCombine mc) none = none := by
  intro l
  induction l with
  | nil =>
    intro
    rfl
  | cons x rest ih =>
    intro h
    rw [List.foldl_cons, h x (List.mem_cons_self _ _)]
    exact ih (fun y hy => h y (List.mem_cons_of_mem _ hy))

end PipelineLemmas

/-! ## Sortedness and per-key value of the published stream -/

section PublishedLemmas

variable {K V B : Type} [LinearOrder K]

theorem smRunState_tmp_files_char (n : Nat) (gp : K → Nat) (cc : V → Option B)
    (mv : Option B → V → Option B) (rotate : Nat → Bool) (input : List (K × V))
    (j : Nat) (hj : j < n) :
    (smRunState n gp cc mv rotate input).tmp_files.getD j [] =
      ((((segmentsOf rotate 0 input).map
          (fun seg => combineAll gp cc mv seg (List.replicate n []))).map
        (fun bs => bs.getD j [])).filter (fun b => !b.isEmpty)).map sortByKey := by
  have hfiles := (smDumps_tmp_files j ((segmentsOf rotate 0 input).map
      (fun seg => combineAll gp cc mv seg (List.replicate n [])))
      (initSortMergeDumper n) (by simpa [initSortMergeDumper] using hj)).2
  have hinit : (initSortMergeDumper n : SortMergeDumperState K B).tmp_files.getD j [] =
      [] := getD_replicate_nil n j
  rw [hinit, List.nil_append] at hfiles
  exact hfiles

theorem smRunState_buckets_nodup (n : Nat) (gp : K → Nat) (cc : V → Option B)
    (mv : Option B → V → Option B) (rotate : Nat → Bool) (input : List (K × V))
    (j : Nat) :
    ∀ b ∈ (((segmentsOf rotate 0 input).map
        (fun seg => combineAll gp cc mv seg (List.replicate n []))).map
      (fun bs => bs.getD j [])), (dictKeys b).Nodup := by
  intro b hb
  obtain ⟨bs2, hbs2, hfst⟩ := List.mem_map.mp hb
  obtain ⟨seg, hseg, hcomb⟩ := List.mem_map.mp hbs2
  rw [← hfst, ← hcomb]
  exact nodup_dictKeys_combineAll gp cc mv seg _
    (fun j2 => by rw [getD_replicate_nil]; exact List.nodup_nil) j

theorem smRunState_files_sorted (n : Nat) (gp : K → Nat) (cc : V → Option B)
    (mv : Option B → V → Option B) (rotate : Nat → Bool) (input : List (K × V))
    (j : Nat) (hj : j < n) :
    ∀ s ∈ (smRunState n gp cc mv rotate input).tmp_files.getD j [],
      s.Pairwise (fun a b => a.1 < b.1) := by
  intro s hs
  rw [smRunState_tmp_files_char n gp cc mv rotate input j hj] at hs
  obtain ⟨b, hb, hsort⟩ := List.mem_map.mp hs
  rw [← hsort]
  exact sortByKey_strict b
    (smRunState_buckets_nodup n gp cc mv rotate input j b (List.mem_of_mem_filter hb))

theorem smTaskPublished_sorted (n : Nat) (gp : K → Nat) (cc : V → Option B)
    (mv : Option B → V → Option B) (mc : Option B → Option B → Option B)
    (rotate : Nat → Bool) (input : List (K × V)) (j : Nat) (hj : j < n) :
    (smTaskPublished n gp cc mv mc rotate input j).Pairwise
      (fun a b => a.1 < b.1) := by
  rw [show smTaskPublished n gp cc mv mc rotate input j =
    smPublished mc ((smRunState n gp cc mv rotate input).tmp_files.getD j []) from rfl]
  rw [smPublished_eq_mergeStreams]
  exact (mergeStreams_sorted_dictGet mc _ [] List.Pairwise.nil
    (smRunState_files_sorted n gp cc mv rotate input j hj)).1

theorem smTaskPublished_dictGet (n : Nat) (gp : K → Nat) (cc : V → Option B)
    (mv : Option B → V → Option B) (mc : Option B → Option B → Option B)
    (rotate : Nat → Bool) (input : List (K × V)) (j : Nat) (k : K) (hj : j < n)
    (hcc : ∀ v : V, (cc v).isSome = true)
    (hmv : ∀ (c : Option B) (v : V), (mv c v).isSome = true) :
    dictGet k (smTaskPublished n gp cc mv mc rotate input j) =
      if gp k = j then
        ((segmentsOf rotate 0 input).map
          (fun seg => ccFold cc mv (valsFor k seg))).foldl (optCombine mc) none
      else none := by
  rw [show smTaskPublished n gp cc mv mc rotate input j =
    smPublished mc ((smRunState n gp cc mv rotate input).tmp_files.getD j []) from rfl]
  rw [smPublished_eq_mergeStreams]
  have hget := (mergeStreams_sorted_dictGet mc
    ((smRunState n gp cc mv rotate input).tmp_files.getD j []) [] List.Pairwise.nil
    (smRunState_files_sorted n gp cc mv rotate input j hj)).2 k
  rw [show mergeStreams mc ((smRunState n gp cc mv rotate input).tmp_files.getD j []) =
    ((smRunState n gp cc mv rotate input).tmp_files.getD j []).foldl
      (fun acc s => merge2 mc acc s) [] from rfl]
  rw [hget]
  rw [smRunState_tmp_files_char n gp cc mv rotate input j hj]
  rw [map_dictGet_sortByKey k _
    (fun b hb => smRunState_buckets_nodup n gp cc mv rotate input j b
      (List.mem_of_mem_filter hb))]
  rw [show dictGet k ([] : List (K × Option B)) = none from rfl]
  rw [foldl_optCombine_filter mc k _ none]
  have hmap : (((segmentsOf rotate 0 input).map
      (fun seg => combineAll gp cc mv seg (List.replicate n []))).map
        (fun bs => bs.getD j [])).map (fun b => dictGet k b) =
      (segmentsOf rotate 0 input).map
        (fun seg => if gp k = j then ccFold cc mv (valsFor k seg) else none) := by
    rw [List.map_map, List.map_map]
    induction segmentsOf rotate 0 input with
    | nil => rfl
    | cons seg rest ih =>
      rw [List.map_cons, List.map_cons, ih]
      have hel : dictGet k ((combineAll gp cc mv seg (List.replicate n [])).getD j []) =
          if gp k = j then ccFold cc mv (valsFor k seg) else none := by
        rw [combineAll_dictGet gp cc mv seg (List.replicate n []) j
          (by rw [List.length_replicate]; exact hj) k]
        rw [getD_replicate_nil]
        by_cases hgpj : gp k = j
        · rw [if_pos hgpj, if_pos hgpj]
          rw [show dictGet k ([] : List (K × Option B)) = none from rfl]
          exact oneKeyFold_eq_ccFold cc mv hcc hmv (valsFor k seg)
        · rw [if_neg hgpj, if_neg hgpj]
          rfl
      rw [show (((fun b => dictGet k b) ∘ fun bs => bs.getD j []) ∘
        fun seg => combineAll gp cc mv seg (List.replicate n [])) seg =
        dictGet k ((combineAll gp cc mv seg (List.replicate n [])).getD j []) from rfl]
      rw [hel]
  rw [hmap]
  by_cases hgpj : gp k = j
  · rw [if_pos hgpj]
    have : (segmentsOf rotate 0 input).map
        (fun seg => if gp k = j then ccFold cc mv (valsFor k seg) else none) =
      (segmentsOf rotate 0 input).map (fun seg => ccFold cc mv (valsFor k seg)) := by
      simp only [if_pos hgpj]
    rw [this]
  · rw [if_neg hgpj]
    apply foldl_optCombine_all_none
    intro x hx
    obtain ⟨seg, hseg, hx2⟩ := List.mem_map.mp hx
    rw [← hx2, if_neg hgpj]

end PublishedLemmas

/-! ## C6: sort-merge ordering -/

/-- C6: in sort-merge mode every dump writes each non-empty bucket to a
fresh temporary in strictly ascending key order, and after commit the
published stream of every reducer is strictly ordered by key, hence also
holds exactly one combined value per key (its key list has no
duplicates). -/
theorem claim_sort_merge_order {K V B : Type} [LinearOrder K] (n : Nat) (gp : K → Nat)
    (cc : V → Option B) (mv : Option B → V → Option B)
    (mc : Option B → Option B → Option B) (rotate : Nat → Bool)
    (input : List (K × V)) (j : Nat) (hj : j < n) :
    (∀ s ∈ (smRunState n gp cc mv rotate input).tmp_files.getD j [],
      s.Pairwise (fun a b => a.1 < b.1)) ∧
    (smTaskPublished n gp cc mv mc rotate input j).Pairwise (fun a b => a.1 < b.1) ∧
    (dictKeys (smTaskPublished n gp cc mv mc rotate input j)).Nodup := by
  refine ⟨smRunState_files_sorted n gp cc mv rotate input j hj,
    smTaskPublished_sorted n gp cc mv mc rotate input j hj, ?_⟩
  have h := smTaskPublished_sorted n gp cc mv mc rotate input j hj
  exact List.pairwise_map.mpr (h.imp (fun hlt => ne_of_lt hlt))

/-- Witness for C6 at the spec's concrete scenario (three reducers, sum
aggregator, rotations after records 1 and 3): reducer 0's published
stream is strictly sorted by key. -/
theorem claim_sort_merge_order_witness :
    (smTaskPublished 3 (fun k : Nat => k % 3) (fun v : Nat => (some v : Option Nat))
      (fun c v => some (c.getD 0 + v)) (fun a b => some (a.getD 0 + b.getD 0))
      (fun i => i == 1 || i == 3) [(0, 1), (1, 2), (0, 3), (2, 4), (1, 5)] 0).Pairwise
      (fun a b => a.1 < b.1) :=
  (claim_sort_merge_order 3 (fun k : Nat => k % 3) (fun v : Nat => (some v : Option Nat))
    (fun c v => some (c.getD 0 + v)) (fun a b => some (a.getD 0 + b.getD 0))
    (fun i => i == 1 || i == 3) [(0, 1), (1, 2), (0, 3), (2, 4), (1, 5)] 0
    (by decide)).2.1

/-! ## C5: spill invariance -/

/-- C5 (amended): for an aggregator whose merge_combiners is associative,
whose merge_value agrees with merge_combiners after create_combiner
(merge_value c v = merge_combiners c (create_combiner v)), and whose
create_combiner and merge_value never return None, the stream published
at commit in sort-merge mode is the same for every choice of rotation
points as for the no-spill run. -/
theorem claim_spill_invariance {K V B : Type} [LinearOrder K] (n : Nat) (gp : K → Nat)
    (cc : V → Option B) (mv : Option B → V → Option B)
    (mc : Option B → Option B → Option B) (rotate : Nat → Bool)
    (input : List (K × V)) (j : Nat) (hj : j < n)
    (hcc : ∀ v : V, (cc v).isSome = true)
    (hmv : ∀ (c : Option B) (v : V), (mv c v).isSome = true)
    (hassoc : ∀ a b c : Option B, mc (mc a b) c = mc a (mc b c))
    (hcompat : ∀ (c : Option B) (v : V), mv c v = mc c (cc v)) :
    smTaskPublished n gp cc mv mc rotate input j =
      smTaskPublished n gp cc mv mc (fun _ => false) input j := by
  apply sorted_dict_ext _ _
    (smTaskPublished_sorted n gp cc mv mc rotate input j hj)
    (smTaskPublished_sorted n gp cc mv mc (fun _ => false) input j hj)
  intro k
  rw [smTaskPublished_dictGet n gp cc mv mc rotate input j k hj hcc hmv,
    smTaskPublished_dictGet n gp cc mv mc (fun _ => false) input j k hj hcc hmv]
  by_cases hgpj : gp k = j
  · rw [if_pos hgpj, if_pos hgpj]
    have hside : ∀ rot : Nat → Bool,
        ((segmentsOf rot 0 input).map (fun seg => ccFold cc mv (valsFor k seg))).foldl
          (optCombine mc) none = ccFold cc mv (valsFor k input) := by
      intro rot
      have hcomp : (segmentsOf rot 0 input).map (fun seg => ccFold cc mv (valsFor k seg)) =
          ((segmentsOf rot 0 input).map (valsFor k)).map (ccFold cc mv) := by
        rw [List.map_map]
        rfl
      rw [hcomp]
      rw [show (none : Option (Option B)) = ccFold cc mv ([] : List V) from rfl]
      rw [foldl_optCombine_map_ccFold cc mv mc hassoc hcompat _ []]
      rw [List.nil_append, ← valsFor_flatten, segmentsOf_flatten]
    rw [hside rotate, hside (fun _ => false)]
  · rw [if_neg hgpj, if_neg hgpj]

/-- C5 counterexample: an aggregator whose merge_combiners (pointwise
multiplication) is associative but incompatible with its merge_value
(pointwise addition): with input [(0, 1), (0, 1)] on one reducer, the
no-spill run publishes [(0, some 2)] while forcing a spill after the
first record publishes [(0, some 1)]. -/
theorem claim_spill_invariance_counterexample :
    (∀ a b c : Option Nat,
      (fun x y : Option Nat => some (x.getD 0 * y.getD 0))
          ((fun x y : Option Nat => some (x.getD 0 * y.getD 0)) a b) c =
        (fun x y : Option Nat => some (x.getD 0 * y.getD 0)) a
          ((fun x y : Option Nat => some (x.getD 0 * y.getD 0)) b c)) ∧
    smTaskPublished 1 (fun _ : Nat => 0) (fun v : Nat => (some v : Option Nat))
        (fun c v => some (c.getD 0 + v))
        (fun x y : Option Nat => some (x.getD 0 * y.getD 0))
        (fun i => i == 0) [(0, 1), (0, 1)] 0 ≠
      smTaskPublished 1 (fun _ : Nat => 0) (fun v : Nat => (some v : Option Nat))
        (fun c v => some (c.getD 0 + v))
        (fun x y : Option Nat => some (x.getD 0 * y.getD 0))
        (fun _ => false) [(0, 1), (0, 1)] 0 := by
  constructor
  · intro a b c
    simp [Nat.mul_assoc]
  · decide

/-- Witness for C5 at the spec's concrete scenario 3 (sum aggregator,
rotations after records 1 and 3): the published stream of reducer 0
equals the no-spill one. -/
theorem claim_spill_invariance_witness :
    smTaskPublished 3 (fun k : Nat => k % 3) (fun v : Nat => (some v : Option Nat))
        (fun c v => some (c.getD 0 + v)) (fun a b => some (a.getD 0 + b.getD 0))
        (fun i => i == 1 || i == 3) [(0, 1), (1, 2), (0, 3), (2, 4), (1, 5)] 0 =
      smTaskPublished 3 (fun k : Nat => k % 3) (fun v : Nat => (some v : Option Nat))
        (fun c v => some (c.getD 0 + v)) (fun a b => some (a.getD 0 + b.getD 0))
        (fun _ => false) [(0, 1), (1, 2), (0, 3), (2, 4), (1, 5)] 0 :=
  claim_spill_invariance 3 (fun k : Nat => k % 3) (fun v : Nat => (some v : Option Nat))
    (fun c v => some (c.getD 0 + v)) (fun a b => some (a.getD 0 + b.getD 0))
    (fun i => i == 1 || i == 3) [(0, 1), (1, 2), (0, 3), (2, 4), (1, 5)] 0
    (by decide) (fun _ => rfl) (fun _ _ => rfl)
    (fun a b c => by simp [Nat.add_assoc]) (fun _ _ => rfl)

/-! ## C9: the OOM classifier -/

/-- C9: maybe_oom reason is true precisely when reason is task_oom,
recv_sig_kill or the container-memory-limit reason, and false on every
other executor- or agent-originated outcome. -/
theorem claim_maybe_oom_classifier :
    (∀ reason : String,
      TaskEndReason.maybe_oom reason = true ↔
        (reason = TaskEndReason.task_oom ∨ reason = TaskEndReason.recv_sig_kill ∨
          reason = TaskEndReason.mesos_cgroup_oom)) ∧
    TaskEndReason.maybe_oom TaskEndReason.success = false ∧
    TaskEndReason.maybe_oom TaskEndReason.other_ecs = false ∧
    TaskEndReason.maybe_oom TaskEndReason.load_failed = false ∧
    TaskEndReason.maybe_oom TaskEndReason.other_failure = false ∧
    TaskEndReason.maybe_oom TaskEndReason.fetch_failed = false ∧
    TaskEndReason.maybe_oom TaskEndReason.recv_sig = false ∧
    TaskEndReason.maybe_oom TaskEndReason.launch_failed = false := by
  refine ⟨fun reason => ?_, ?_, ?_, ?_, ?_, ?_, ?_, ?_⟩
  · simp only [TaskEndReason.maybe_oom, Bool.or_eq_true, beq_iff_eq, or_assoc]
  all_goals decide

/-! ## C8: the run wrapper -/

/-- C8: for a task with mem > 0, a cooperative interrupt makes run
terminate the worker with the reserved OOM exit code exactly when the
accountant's oom flag is set, and re-raise otherwise; and on every exit
from run back to its caller (normal return, re-raised interrupt, other
exception) the eager-check flag is re-enabled and the attempt is
deregistered. -/
theorem claim_run_interrupt_cleanup (A : Type) (mem : Int) (ms : Bool) (m0 : MemInfo)
    (hmem : 0 < mem) :
    ((DAGTask.run A mem ms m0 .keyboardInterrupt).1 = RunOutcome.oomExit ↔ m0.oom = true) ∧
    (m0.oom = false →
      (DAGTask.run A mem ms m0 .keyboardInterrupt).1 = RunOutcome.raisedInterrupt) ∧
    (∀ a : A, (DAGTask.run A mem ms m0 (.ret a)).1 = RunOutcome.normal a) ∧
    (∀ e : Nat, (DAGTask.run A mem ms m0 (.exc e)).1 = RunOutcome.raisedExc e) ∧
    (∀ body : BodyResult A, (DAGTask.run A mem ms m0 body).1 ≠ RunOutcome.oomExit →
      (DAGTask.run A mem ms m0 body).2.check = true ∧
      (DAGTask.run A mem ms m0 body).2.stopped = true) := by
  have hne : mem ≠ 0 := by omega
  refine ⟨?_, ?_, ?_, ?_, ?_⟩
  · cases hoom : m0.oom <;> simp [DAGTask.run, runFinally, hne, hoom]
  · intro hoom
    simp [DAGTask.run, runFinally, hne, hoom]
  · intro a
    simp [DAGTask.run, runFinally, hne]
  · intro e
    simp [DAGTask.run, runFinally, hne]
  · intro body hbody
    cases body with
    | ret a => simp [DAGTask.run, runFinally, hne]
    | exc e => simp [DAGTask.run, runFinally, hne]
    | keyboardInterrupt =>
      cases hoom : m0.oom
      · simp [DAGTask.run, runFinally, hne, hoom]
      · exfalso
        apply hbody
        simp [DAGTask.run, runFinally, hne, hoom]

/-- Witness for C8 at a concrete input: mem = 1, oom flag set, interrupt
delivered: run exits with the reserved OOM code. -/
theorem claim_run_interrupt_cleanup_witness :
    (DAGTask.run Nat 1 true ⟨true, false, false, true⟩ .keyboardInterrupt).1 =
      RunOutcome.oomExit :=
  (claim_run_interrupt_cleanup Nat 1 true ⟨true, false, false, true⟩ (by decide)).1.mpr rfl

/-! ## C2: the bucket-update rule -/

/-- C2 (amended): the bucket-update rule as the code implements it, for
the record (k, v) with j = partition(k): a key absent from buckets[j], or
present with stored combiner None, gets create_combiner(v); a key present
with a stored combiner that is not None gets merge_value(existing, v);
every other bucket is unchanged. -/
theorem claim_bucket_update_rule {K V B : Type} [DecidableEq K]
    (get_partition : K → Nat) (cc : V → Option B) (mv : Option B → V → Option B)
    (buckets : List (List (K × Option B))) (k : K) (v : V)
    (hj : get_partition k < buckets.length) :
    (dictGet k (buckets.getD (get_partition k) []) = none →
      (bucketsStep get_partition cc mv buckets k v).getD (get_partition k) [] =
        dictInsert k (cc v) (buckets.getD (get_partition k) [])) ∧
    (dictGet k (buckets.getD (get_partition k) []) = some none →
      (bucketsStep get_partition cc mv buckets k v).getD (get_partition k) [] =
        dictInsert k (cc v) (buckets.getD (get_partition k) [])) ∧
    (∀ b : B, dictGet k (buckets.getD (get_partition k) []) = some (some b) →
      (bucketsStep get_partition cc mv buckets k v).getD (get_partition k) [] =
        dictInsert k (mv (some b) v) (buckets.getD (get_partition k) [])) ∧
    (∀ j2, j2 ≠ get_partition k →
      (bucketsStep get_partition cc mv buckets k v).getD j2 [] = buckets.getD j2 []) := by
  refine ⟨?_, ?_, ?_, ?_⟩
  · intro h
    show (buckets.set _ _).getD _ [] = _
    rw [getD_set, if_pos ⟨rfl, hj⟩, combineStep_absent _ _ _ _ _ h]
  · intro h
    show (buckets.set _ _).getD _ [] = _
    rw [getD_set, if_pos ⟨rfl, hj⟩, combineStep_noneVal _ _ _ _ _ h]
  · intro b h
    show (buckets.set _ _).getD _ [] = _
    rw [getD_set, if_pos ⟨rfl, hj⟩, combineStep_someVal _ _ _ _ _ _ h]
  · intro j2 hne
    show (buckets.set _ _).getD j2 [] = _
    rw [getD_set, if_neg]
    rintro ⟨h1, -⟩
    exact hne h1.symm

/-- C2 counterexample: key 0 is present with stored combiner None (a value
create_combiner can produce); the claim requires the bucket to become
merge_value(None, 5) = some 7, but the code stores create_combiner(5) =
some 9. -/
theorem claim_bucket_update_rule_counterexample :
    dictGet (0 : Nat) [((0 : Nat), (none : Option Nat))] = some none ∧
    combineStep (fun _ : Nat => (some 9 : Option Nat)) (fun _ _ => some 7)
      [((0 : Nat), (none : Option Nat))] 0 5 = [(0, some 9)] ∧
    (fun (_ : Option Nat) (_ : Nat) => (some 7 : Option Nat)) none 5 = some 7 ∧
    [((0 : Nat), (some 9 : Option Nat))] ≠ [((0 : Nat), (some 7 : Option Nat))] := by
  decide

/-- Witness for C2 at a concrete input: key 1 is present in bucket 1 with
the non-None combiner some 2, so merging the record (1, 5) stores
merge_value(some 2, 5) = some 7. -/
theorem claim_bucket_update_rule_witness :
    (bucketsStep (fun k : Nat => k % 2) (fun v : Nat => (some v : Option Nat))
        (fun c v => some (c.getD 0 + v))
        [[], [((1 : Nat), (some 2 : Option Nat))]] 1 5).getD 1 [] =
      dictInsert 1 (some 7) [((1 : Nat), (some 2 : Option Nat))] :=
  (claim_bucket_update_rule (fun k : Nat => k % 2) (fun v : Nat => (some v : Option Nat))
      (fun c v => some (c.getD 0 + v))
      [[], [((1 : Nat), (some 2 : Option Nat))]] 1 5 (by decide)).2.2.1 2 (by decide)

/-! ## C4: malformed records -/

/-- C4: a record stream containing any value that does not destructure as
a (k, v) pair makes the shuffle-map loop fail with the user-fatal error
kind DparkUserFatalError; conversely a stream of pairs is accepted: the
loop returns the combined buckets and never raises this error. -/
theorem claim_malformed_record {K V B : Type} [DecidableEq K]
    (get_partition : K → Nat) (cc : V → Option B) (mv : Option B → V → Option B)
    (records : List (PyRecord K V)) (buckets : List (List (K × Option B))) :
    ((∃ r ∈ records, r.isPair = false) →
      shuffleMapLoop get_partition cc mv records buckets = .error .dparkUserFatal) ∧
    ((∀ r ∈ records, r.isPair = true) →
      shuffleMapLoop get_partition cc mv records buckets =
        .ok (combineAll get_partition cc mv
          (records.filterMap
            (fun r => match r with | .pair k v => some (k, v) | .nonpair _ => none))
          buckets)) := by
  induction records generalizing buckets with
  | nil =>
    refine ⟨?_, ?_⟩
    · rintro ⟨r, hr, -⟩
      simp at hr
    · intro
      simp [shuffleMapLoop, combineAll]
  | cons r rest ih =>
    cases r with
    | pair k v =>
      refine ⟨?_, ?_⟩
      · rintro ⟨r2, hr2, hnp⟩
        rcases List.mem_cons.mp hr2 with h | h
        · subst h
          simp [PyRecord.isPair] at hnp
        · exact (ih _).1 ⟨r2, h, hnp⟩
      · intro hall
        have := (ih (bucketsStep get_partition cc mv buckets k v)).2
          (fun r hr => hall r (List.mem_cons_of_mem _ hr))
        simpa [shuffleMapLoop, combineAll] using this
    | nonpair t =>
      refine ⟨?_, ?_⟩
      · intro
        simp [shuffleMapLoop]
      · intro hall
        have := hall (.nonpair t) (List.mem_cons_self _ _)
        simp [PyRecord.isPair] at this

/-- Witness for C4 at the spec's concrete scenario: the stream
[(0, 1), 42, (1, 2)] raises the user-fatal error. -/
theorem claim_malformed_record_witness :
    shuffleMapLoop (fun k : Nat => k % 2) (fun v : Nat => (some v : Option Nat))
        (fun c v => some (c.getD 0 + v))
        [PyRecord.pair 0 1, PyRecord.nonpair 42, PyRecord.pair 1 2]
        (List.replicate 2 []) = .error .dparkUserFatal :=
  (claim_malformed_record (fun k : Nat => k % 2) (fun v : Nat => (some v : Option Nat))
      (fun c v => some (c.getD 0 + v))
      [PyRecord.pair 0 1, PyRecord.nonpair 42, PyRecord.pair 1 2]
      (List.replicate 2 [])).1 ⟨PyRecord.nonpair 42, by decide, rfl⟩

end Dpark
